import Mathlib

/-!
# Shallow embedding of the tsserver request/response engine

This file models the request-queueing, response-correlation and cancellation
engine of `src/extensions/typescript-language-features/src/server.ts`:
`CallbackMap`, `RequestQueue` and the `TypeScriptServer` methods
(`executeImpl`, `sendNextRequests`, `sendRequest`, `dispatchMessage`,
`dispatchResponse`, `tryCancelRequest`, `fetchCallback`, `handleExit`,
`handleError`, `dispose`, `parseErrorText`).

JavaScript `Map`s are modelled as insertion-ordered association lists,
`Set<number>` as an insertion-ordered duplicate-free list.  The caller-side
continuations (`onSuccess` / `onError`) are modelled by appending a resolution
record to a ghost event log; the telemetry side effect of the promise `catch`
handler in `executeImpl` (fired only when `wasCancelled` is false) is recorded
as a boolean on each failure record.  Writes to the worker's stdin are recorded
in a ghost `written` log; a per-step oracle `fails : Nat -> Bool` tells which
writes throw, mirroring the `try/catch` around `this.write` in `sendRequest`.
Ghost fields (`events`, `written`, `registeredLog`, `tokens`,
`cancelledFlags`) are observations only: no modelled operation reads them
except the telemetry flag computation, exactly as in the source.
-/

namespace TSServer

/-- Association-list model of a JavaScript `Map`: `set` replaces the value if
the key is present, otherwise appends (insertion order preserved). -/
def mapSet {α : Type} (l : List (Nat × α)) (k : Nat) (v : α) : List (Nat × α) :=
  match l with
  | [] => [(k, v)]
  | (k2, v2) :: rest => if k2 = k then (k, v) :: rest else (k2, v2) :: mapSet rest k v

/-- `Map.get`: first binding for the key, if any. -/
def mapGet {κ α : Type} [DecidableEq κ] (l : List (κ × α)) (k : κ) : Option α :=
  match l with
  | [] => none
  | (k2, v2) :: rest => if k2 = k then some v2 else mapGet rest k

/-- `Map.delete`: remove the first binding for the key. -/
def mapDelete {α : Type} (l : List (Nat × α)) (k : Nat) : List (Nat × α) :=
  match l with
  | [] => []
  | (k2, v2) :: rest => if k2 = k then rest else (k2, v2) :: mapDelete rest k

/-- `Set.add`: append if not already present. -/
def setAdd (l : List Nat) (s : Nat) : List Nat :=
  if l.contains s then l else l ++ [s]

/-- Mirrors `CallbackItem<R>` (the continuations themselves live in the ghost
event log, keyed by sequence number). -/
structure CallbackItem where
  startTime : Nat
  isAsync : Bool
deriving Repr, DecidableEq

/-- Mirrors `CallbackMap<R>`: a synchronous and an asynchronous partition. -/
structure CallbackMap where
  callbacks : List (Nat × CallbackItem)
  asyncCallbacks : List (Nat × CallbackItem)
deriving Repr, DecidableEq

/-- `CallbackMap.add`. -/
def CallbackMap.add (m : CallbackMap) (seq : Nat) (cb : CallbackItem) (isAsync : Bool) :
    CallbackMap :=
  if isAsync then { m with asyncCallbacks := mapSet m.asyncCallbacks seq cb }
  else { m with callbacks := mapSet m.callbacks seq cb }

/-- `CallbackMap.delete` (private in the source): delete from the synchronous
partition; only if nothing was deleted there, delete from the asynchronous one. -/
def CallbackMap.del (m : CallbackMap) (seq : Nat) : CallbackMap :=
  if (mapGet m.callbacks seq).isSome then { m with callbacks := mapDelete m.callbacks seq }
  else { m with asyncCallbacks := mapDelete m.asyncCallbacks seq }

/-- `CallbackMap.fetch`: look up in the synchronous partition first, then the
asynchronous one, and delete the binding; returns the callback (if any) and
the updated map. -/
def CallbackMap.fetch (m : CallbackMap) (seq : Nat) : Option CallbackItem × CallbackMap :=
  (((mapGet m.callbacks seq).orElse fun _ => mapGet m.asyncCallbacks seq), m.del seq)

/-- Mirrors `RequestItem` (the `Proto.Request` is flattened to its sequence
number and command name; arguments are opaque and irrelevant to the engine). -/
structure RequestItem where
  seq : Nat
  command : String
  expectsResponse : Bool
  isAsync : Bool
deriving Repr, DecidableEq

/-- `RequestQueue.tryCancelPendingRequest`: remove the first queued item with
the given sequence number; report whether one was found. -/
def tryCancelPendingRequest (q : List RequestItem) (seq : Nat) : Bool × List RequestItem :=
  match q with
  | [] => (false, [])
  | item :: rest =>
    if item.seq = seq then (true, rest)
    else
      let r := tryCancelPendingRequest rest seq
      (r.1, item :: r.2)

/-- Cause attached to an `onError` invocation, mirroring the `Error` values the
source constructs at each failure site. -/
inductive ErrCause
  | responseErr
  | writeErr
  | cancelled
  | serverExited
  | serverErrored
  | serverDisposed
deriving Repr, DecidableEq

/-- A resolution record: which continuation of the callback registered under
`seq` was invoked.  For failures, `telemetry` records whether the promise
`catch` handler in `executeImpl` would forward a diagnostic record (i.e.
whether `wasCancelled` was false at that moment). -/
inductive Ev
  | success (seq : Nat)
  | failure (seq : Nat) (cause : ErrCause) (telemetry : Bool)
deriving Repr, DecidableEq

/-- Sequence number of a resolution record. -/
def Ev.seqOf : Ev → Nat
  | .success s => s
  | .failure s _ _ => s

/-- The engine state: the fields of `TypeScriptServer` and `RequestQueue`,
plus ghost observation logs. -/
structure ServerState where
  /-- `RequestQueue.queue`. -/
  queue : List RequestItem
  /-- `RequestQueue.sequenceNumber`. -/
  sequenceNumber : Nat
  /-- `TypeScriptServer._callbacks`. -/
  cmap : CallbackMap
  /-- `TypeScriptServer._pendingResponses`. -/
  pendingResponses : List Nat
  /-- Whether `_cancellationPipeName` is configured. -/
  cancellationPipe : Bool
  /-- Ghost: sequence numbers written to the worker stdin, in order. -/
  written : List Nat
  /-- Ghost: resolution records, in order of continuation invocation. -/
  events : List Ev
  /-- Ghost: `(seq, isAsync)` for every callback ever registered. -/
  registeredLog : List (Nat × Bool)
  /-- Ghost: sequence numbers whose submission supplied a cancellation token. -/
  tokens : List Nat
  /-- Ghost: sequence numbers whose `wasCancelled` flag was set. -/
  cancelledFlags : List Nat
deriving Repr, DecidableEq

/-- Invoke `onSuccess` of the callback registered under `seq`. -/
def resolveSuccess (st : ServerState) (seq : Nat) : ServerState :=
  { st with events := st.events ++ [Ev.success seq] }

/-- Invoke `onError` of the callback registered under `seq`.  The telemetry
flag is what the `catch` handler in `executeImpl` computes from `wasCancelled`. -/
def resolveError (st : ServerState) (seq : Nat) (cause : ErrCause) : ServerState :=
  { st with events := st.events ++ [Ev.failure seq cause (!(st.cancelledFlags.contains seq))] }

/-- `TypeScriptServer.fetchCallback`: fetch from the callback map; if found,
also remove the sequence number from `_pendingResponses`. -/
def fetchCallback (st : ServerState) (seq : Nat) : Option CallbackItem × ServerState :=
  match (st.cmap.fetch seq).1 with
  | none => (none, st)
  | some cb =>
    (some cb,
      { st with cmap := (st.cmap.fetch seq).2, pendingResponses := st.pendingResponses.erase seq })

/-- `TypeScriptServer.sendRequest`: book the sequence number as in flight when
the item is synchronous and expects a response, then write it; if the write
throws, fetch the callback and fail it with the write error. -/
def sendOne (fails : Nat → Bool) (item : RequestItem) (st : ServerState) : ServerState :=
  let st1 :=
    if item.expectsResponse && !item.isAsync then
      { st with pendingResponses := setAdd st.pendingResponses item.seq }
    else st
  if fails item.seq then
    match (fetchCallback st1 item.seq).1 with
    | none => (fetchCallback st1 item.seq).2
    | some _ => resolveError (fetchCallback st1 item.seq).2 item.seq ErrCause.writeErr
  else { st1 with written := st1.written ++ [item.seq] }

/-- Loop body of `TypeScriptServer.sendNextRequests`, with explicit fuel.
Each iteration shifts one item off the queue, so fuel equal to the queue
length makes this exactly the source's `while` loop. -/
def sendNextAux (fails : Nat → Bool) : Nat → ServerState → ServerState
  | 0, st => st
  | fuel + 1, st =>
    if st.pendingResponses.length = 0 then
      match st.queue with
      | [] => st
      | item :: rest => sendNextAux fails fuel (sendOne fails item { st with queue := rest })
    else st

/-- `TypeScriptServer.sendNextRequests`: while nothing synchronous is in
flight and the queue is non-empty, shift and send the head item. -/
def sendNextRequests (fails : Nat → Bool) (st : ServerState) : ServerState :=
  sendNextAux fails st.queue.length st

/-- `TypeScriptServer.executeImpl`: allocate the next sequence number, register
a callback when a result is expected (and remember the cancellation token),
queue the item and run the drain loop. -/
def executeImpl (command : String) (isAsync expectsResult hasToken : Bool)
    (fails : Nat → Bool) (st : ServerState) : ServerState :=
  let seq := st.sequenceNumber
  let st1 := { st with sequenceNumber := seq + 1 }
  let st2 :=
    if expectsResult then
      { st1 with
        cmap := st1.cmap.add seq { startTime := 0, isAsync := isAsync } isAsync
        registeredLog := st1.registeredLog ++ [(seq, isAsync)]
        tokens := if hasToken then st1.tokens ++ [seq] else st1.tokens }
    else st1
  let item : RequestItem :=
    { seq := seq, command := command, expectsResponse := expectsResult, isAsync := isAsync }
  sendNextRequests fails { st2 with queue := st2.queue ++ [item] }

/-- `TypeScriptServer.tryCancelRequest`: try to remove a still-queued item;
otherwise, when a cancellation pipe is configured, signal it (pure I/O, no
engine-state effect); otherwise just trace.  In all cases the `finally` block
fetches the callback and, when one is still registered, fails it with a
cancellation reason. -/
def tryCancelRequest (seq : Nat) (st : ServerState) : ServerState :=
  let r := tryCancelPendingRequest st.queue seq
  let st1 :=
    if r.1 then { st with queue := r.2 }
    else if st.cancellationPipe then st
    else st
  match (fetchCallback st1 seq).1 with
  | none => (fetchCallback st1 seq).2
  | some _ => resolveError (fetchCallback st1 seq).2 seq ErrCause.cancelled

/-- The cancellation-token handler installed by `executeImpl`: set the
`wasCancelled` flag, then call `tryCancelRequest`.  Only sequence numbers that
registered a token can fire it. -/
def cancelToken (seq : Nat) (st : ServerState) : ServerState :=
  if st.tokens.contains seq then
    tryCancelRequest seq { st with cancelledFlags := setAdd st.cancelledFlags seq }
  else st

/-- `TypeScriptServer.dispatchResponse`: fetch the callback for the response's
sequence number; if registered, invoke success or error per the success flag. -/
def dispatchResponse (rseq : Nat) (success : Bool) (st : ServerState) : ServerState :=
  match (fetchCallback st rseq).1 with
  | none => (fetchCallback st rseq).2
  | some _ =>
    if success then resolveSuccess (fetchCallback st rseq).2 rseq
    else resolveError (fetchCallback st rseq).2 rseq ErrCause.responseErr

/-- A decoded message from the worker: a response, an event (whose body
carries a `request_seq` only meaningful for `requestCompleted`), or a message
of unknown type. -/
inductive Message
  | response (requestSeq : Nat) (success : Bool)
  | event (name : String) (requestSeq : Nat)
  | unknown
deriving Repr, DecidableEq

/-- `TypeScriptServer.dispatchMessage`: dispatch by message type; the
`requestCompleted` event fetches directly from the callback map (not through
`fetchCallback`) and invokes success; unknown types throw.  The `finally`
block runs `sendNextRequests` in every case. -/
def dispatchMessage (fails : Nat → Bool) (msg : Message) (st : ServerState) : ServerState :=
  let st1 :=
    match msg with
    | Message.response rseq success => dispatchResponse rseq success st
    | Message.event name rseq =>
      if name = "requestCompleted" then
        match (st.cmap.fetch rseq).1 with
        | none => { st with cmap := (st.cmap.fetch rseq).2 }
        | some _ => resolveSuccess { st with cmap := (st.cmap.fetch rseq).2 } rseq
      else st
    | Message.unknown => st
  sendNextRequests fails st1

/-- `CallbackMap.destroy`, one partition at a time: invoke `onError` with the
given cause for every callback in the list, in insertion order. -/
def destroyList (cause : ErrCause) (l : List (Nat × CallbackItem)) (st : ServerState) :
    ServerState :=
  match l with
  | [] => st
  | (seq, _) :: rest => destroyList cause rest (resolveError st seq cause)

/-- `CallbackMap.destroy`: fail every callback in the synchronous partition,
then every one in the asynchronous partition, then clear both. -/
def destroy (cause : ErrCause) (st : ServerState) : ServerState :=
  let st1 := destroyList cause st.cmap.callbacks st
  let st2 := destroyList cause st1.cmap.asyncCallbacks st1
  { st2 with cmap := { callbacks := [], asyncCallbacks := [] } }

/-- `TypeScriptServer.handleExit`: fire the exit notification (external), then
destroy all callbacks with a "server exited" error. -/
def handleExit (st : ServerState) : ServerState :=
  destroy ErrCause.serverExited st

/-- `TypeScriptServer.handleError`: fire the error notification (external),
then destroy all callbacks with a "server errored" error. -/
def handleError (st : ServerState) : ServerState :=
  destroy ErrCause.serverErrored st

/-- `TypeScriptServer.dispose`: destroy all callbacks with a "server disposed"
error and clear the in-flight synchronous set. -/
def dispose (st : ServerState) : ServerState :=
  let st1 := destroy ErrCause.serverDisposed st
  { st1 with pendingResponses := [] }

/-- One engine operation: a submission (with its write-failure oracle), a
cancellation-token firing, a dispatched decoded message, a worker exit or
error event, or disposal. -/
inductive Op
  | execute (command : String) (isAsync expectsResult hasToken : Bool) (fails : Nat → Bool)
  | cancel (seq : Nat)
  | dispatch (msg : Message) (fails : Nat → Bool)
  | exit
  | error
  | dispose

/-- Interpret one operation. -/
def step (op : Op) (st : ServerState) : ServerState :=
  match op with
  | .execute c a e t f => executeImpl c a e t f st
  | .cancel s => cancelToken s st
  | .dispatch m f => dispatchMessage f m st
  | .exit => handleExit st
  | .error => handleError st
  | .dispose => dispose st

/-- A freshly constructed server (no pipe configured; the pipe only matters
for external I/O). -/
def initState : ServerState :=
  { queue := []
    sequenceNumber := 0
    cmap := { callbacks := [], asyncCallbacks := [] }
    pendingResponses := []
    cancellationPipe := false
    written := []
    events := []
    registeredLog := []
    tokens := []
    cancelledFlags := [] }

/-- Run a sequence of operations. -/
def run (ops : List Op) (st : ServerState) : ServerState :=
  match ops with
  | [] => st
  | op :: rest => run rest (step op st)

/-- A write oracle under which every write succeeds. -/
def noFail : Nat → Bool := fun _ => false

/-- A write oracle under which every write throws. -/
def allFail : Nat → Bool := fun _ => true

/-- Index of the first newline in a character list (mirrors
`String.indexOf('\n')`). -/
def newlineIdx : List Char → Option Nat
  | [] => none
  | c :: cs => if c = '\n' then some 0 else (newlineIdx cs).map Nat.succ

/-- Character-list version of `String.startsWith`. -/
def listStarts : List Char → List Char → Bool
  | [], _ => true
  | _ :: _, [] => false
  | a :: as, b :: bs => a = b && listStarts as bs

/-- `TypeScriptServer.parseErrorText`: build the telemetry properties map for
a failed request.  Always records the command; when error text is present,
records it raw, and if it starts with `"Error processing request. "` and the
remainder contains a newline, additionally records the part before the first
newline as `message` and everything after it as `stack`. -/
def parseErrorText (errorText : Option String) (command : String) : List (String × String) :=
  let props : List (String × String) := [("command", command)]
  match errorText with
  | none => props
  | some et =>
    let props := props ++ [("errorText", et)]
    let pre := "Error processing request. "
    if listStarts pre.data et.data then
      let rest := et.data.drop pre.data.length
      match newlineIdx rest with
      | none => props
      | some i =>
        props ++ [("message", String.mk (rest.take i)), ("stack", String.mk (rest.drop (i + 1)))]
    else props

/-! ## Basic lemmas about the map and set models -/

theorem mapGet_set_self {α : Type} (l : List (Nat × α)) (k : Nat) (v : α) :
    mapGet (mapSet l k v) k = some v := by
  induction l with
  | nil => simp [mapSet, mapGet]
  | cons p rest ih =>
    obtain ⟨k2, v2⟩ := p
    by_cases h : k2 = k
    · simp [mapSet, h, mapGet]
    · simp [mapSet, h, mapGet, ih]

theorem mapGet_set_ne {α : Type} (l : List (Nat × α)) {j k : Nat} (h : j ≠ k) (v : α) :
    mapGet (mapSet l k v) j = mapGet l j := by
  induction l with
  | nil => simp [mapSet, mapGet, Ne.symm h]
  | cons p rest ih =>
    obtain ⟨k2, v2⟩ := p
    by_cases h2 : k2 = k
    · subst h2
      simp [mapSet, mapGet, Ne.symm h]
    · simp only [mapSet, if_neg h2]
      by_cases h3 : k2 = j
      · simp [mapGet, h3]
      · simp [mapGet, h3, ih]

theorem keys_set {α : Type} (l : List (Nat × α)) (k : Nat) (v : α) :
    (mapSet l k v).map Prod.fst = l.map Prod.fst ∨
      (mapSet l k v).map Prod.fst = l.map Prod.fst ++ [k] := by
  induction l with
  | nil => simp [mapSet]
  | cons p rest ih =>
    obtain ⟨k2, v2⟩ := p
    by_cases h : k2 = k
    · subst h
      simp [mapSet]
    · simp only [mapSet, if_neg h, List.map_cons]
      rcases ih with ih | ih
      · exact Or.inl (by simp [ih])
      · exact Or.inr (by simp [ih])

theorem nodup_keys_set {α : Type} (l : List (Nat × α)) (k : Nat) (v : α)
    (h : (l.map Prod.fst).Nodup) (hk : k ∉ l.map Prod.fst) :
    ((mapSet l k v).map Prod.fst).Nodup := by
  rcases keys_set l k v with hs | hs
  · rw [hs]; exact h
  · rw [hs]
    refine List.Nodup.append h (by simp) ?_
    intro a ha hb
    simp only [List.mem_singleton] at hb
    subst hb
    exact hk ha

theorem keys_delete_sublist {α : Type} (l : List (Nat × α)) (k : Nat) :
    List.Sublist ((mapDelete l k).map Prod.fst) (l.map Prod.fst) := by
  induction l with
  | nil => simp [mapDelete]
  | cons p rest ih =>
    obtain ⟨k2, v2⟩ := p
    by_cases h : k2 = k
    · simp only [mapDelete, if_pos h, List.map_cons]
      exact List.sublist_cons_of_sublist _ (List.Sublist.refl _)
    · simp only [mapDelete, if_neg h, List.map_cons]
      exact List.Sublist.cons₂ _ ih

theorem mapGet_delete_ne {α : Type} (l : List (Nat × α)) {j k : Nat} (h : j ≠ k) :
    mapGet (mapDelete l k) j = mapGet l j := by
  induction l with
  | nil => simp [mapDelete]
  | cons p rest ih =>
    obtain ⟨k2, v2⟩ := p
    by_cases h2 : k2 = k
    · subst h2
      simp [mapDelete, mapGet, Ne.symm h]
    · simp only [mapDelete, if_neg h2, mapGet]
      by_cases h3 : k2 = j
      · simp [h3]
      · simp [h3, ih]

theorem mapGet_isSome_iff {α : Type} (l : List (Nat × α)) (k : Nat) :
    (mapGet l k).isSome = true ↔ k ∈ l.map Prod.fst := by
  induction l with
  | nil => simp [mapGet]
  | cons p rest ih =>
    obtain ⟨k2, v2⟩ := p
    by_cases h : k2 = k
    · simp [mapGet, h]
    · simp [mapGet, h, ih, Ne.symm h]

theorem mapGet_none_iff {α : Type} (l : List (Nat × α)) (k : Nat) :
    mapGet l k = none ↔ k ∉ l.map Prod.fst := by
  rw [← mapGet_isSome_iff]
  cases mapGet l k <;> simp

theorem mapGet_delete_self {α : Type} (l : List (Nat × α)) (k : Nat)
    (h : (l.map Prod.fst).Nodup) : mapGet (mapDelete l k) k = none := by
  induction l with
  | nil => simp [mapDelete, mapGet]
  | cons p rest ih =>
    obtain ⟨k2, v2⟩ := p
    simp only [List.map_cons, List.nodup_cons] at h
    by_cases h2 : k2 = k
    · subst h2
      simp only [mapDelete, if_pos rfl]
      exact (mapGet_none_iff rest k2).mpr h.1
    · simp only [mapDelete, if_neg h2, mapGet, if_neg h2]
      exact ih h.2

theorem mapDelete_of_none {α : Type} (l : List (Nat × α)) (k : Nat)
    (h : mapGet l k = none) : mapDelete l k = l := by
  induction l with
  | nil => simp [mapDelete]
  | cons p rest ih =>
    obtain ⟨k2, v2⟩ := p
    by_cases h2 : k2 = k
    · simp [mapGet, h2] at h
    · simp only [mapGet, if_neg h2] at h
      simp [mapDelete, h2, ih h]

theorem key_val_unique {α : Type} {l : List (Nat × α)} (h : (l.map Prod.fst).Nodup)
    {s : Nat} {a b : α} (ha : (s, a) ∈ l) (hb : (s, b) ∈ l) : a = b := by
  induction l with
  | nil => cases ha
  | cons p rest ih =>
    simp only [List.map_cons, List.nodup_cons] at h
    rcases List.mem_cons.mp ha with ha1 | ha1 <;> rcases List.mem_cons.mp hb with hb1 | hb1
    · have : (s, a) = (s, b) := ha1.trans hb1.symm
      exact (Prod.ext_iff.mp this).2
    · exfalso
      apply h.1
      have : s ∈ rest.map Prod.fst := List.mem_map_of_mem Prod.fst hb1
      rw [← ha1]
      exact this
    · exfalso
      apply h.1
      have : s ∈ rest.map Prod.fst := List.mem_map_of_mem Prod.fst ha1
      rw [← hb1]
      exact this
    · exact ih h.2 ha1 hb1

theorem mem_setAdd {l : List Nat} {s j : Nat} : j ∈ setAdd l s ↔ j ∈ l ∨ j = s := by
  unfold setAdd
  by_cases h : s ∈ l
  · rw [if_pos (List.elem_iff.mpr h)]
    constructor
    · exact Or.inl
    · rintro (hj | rfl)
      · exact hj
      · exact h
  · rw [if_neg fun hc => h (List.elem_iff.mp hc)]
    simp

theorem setAdd_contains_self (l : List Nat) (s : Nat) : (setAdd l s).contains s = true :=
  List.elem_iff.mpr (mem_setAdd.mpr (Or.inr rfl))

theorem cancelPending_sublist (q : List RequestItem) (s : Nat) :
    List.Sublist (tryCancelPendingRequest q s).2 q := by
  induction q with
  | nil => simp [tryCancelPendingRequest]
  | cons item rest ih =>
    by_cases h : item.seq = s
    · simp only [tryCancelPendingRequest, if_pos h]
      exact List.sublist_cons_of_sublist _ (List.Sublist.refl _)
    · simp only [tryCancelPendingRequest, if_neg h]
      exact List.Sublist.cons₂ _ ih

/-! ## Derived state observations used by the invariant -/

/-- Whether any callback is registered under `s` in either partition. -/
def inMaps (m : CallbackMap) (s : Nat) : Bool :=
  (mapGet m.callbacks s).isSome || (mapGet m.asyncCallbacks s).isSome

/-- The sequence numbers ever registered. -/
def regSeqs (st : ServerState) : List Nat := st.registeredLog.map Prod.fst

/-- Number of continuation invocations recorded for sequence number `s`. -/
def resCount (s : Nat) (evs : List Ev) : Nat := evs.countP (fun e => Ev.seqOf e == s)

theorem resCount_append (s : Nat) (evs1 evs2 : List Ev) :
    resCount s (evs1 ++ evs2) = resCount s evs1 + resCount s evs2 :=
  List.countP_append _ evs1 evs2

theorem resCount_single_self (s : Nat) (e : Ev) (h : Ev.seqOf e = s) : resCount s [e] = 1 := by
  simp [resCount, List.countP, List.countP.go, h]

theorem resCount_single_ne (s : Nat) (e : Ev) (h : Ev.seqOf e ≠ s) : resCount s [e] = 0 := by
  have hb : (Ev.seqOf e == s) = false := by simpa using h
  simp [resCount, List.countP, List.countP.go, hb]

/-! ## Lemmas about `CallbackMap.fetch` and `CallbackMap.del` -/

theorem fetch_snd (m : CallbackMap) (s : Nat) : (m.fetch s).2 = m.del s := rfl

theorem fetch_none_parts {m : CallbackMap} {s : Nat} (h : (m.fetch s).1 = none) :
    mapGet m.callbacks s = none ∧ mapGet m.asyncCallbacks s = none := by
  unfold CallbackMap.fetch at h
  cases hc : mapGet m.callbacks s with
  | some v => rw [hc] at h; simp [Option.orElse] at h
  | none =>
    rw [hc] at h
    simp only [Option.orElse] at h
    exact ⟨rfl, h⟩

theorem inMaps_of_fetch_some {m : CallbackMap} {s : Nat} {cb : CallbackItem}
    (h : (m.fetch s).1 = some cb) : inMaps m s = true := by
  unfold CallbackMap.fetch at h
  unfold inMaps
  cases hc : mapGet m.callbacks s with
  | some v => simp [hc]
  | none =>
    rw [hc] at h
    simp only [Option.orElse] at h
    simp [h]

theorem fetch_none_of_inMaps_false {m : CallbackMap} {s : Nat} (h : inMaps m s = false) :
    (m.fetch s).1 = none := by
  unfold inMaps at h
  rw [Bool.or_eq_false_iff] at h
  have h1 : mapGet m.callbacks s = none := by
    cases hc : mapGet m.callbacks s with
    | none => rfl
    | some v => rw [hc] at h; simp at h
  have h2 : mapGet m.asyncCallbacks s = none := by
    cases hc : mapGet m.asyncCallbacks s with
    | none => rfl
    | some v => rw [hc] at h; simp at h
  unfold CallbackMap.fetch
  rw [h1, h2]
  rfl

theorem del_eq_self {m : CallbackMap} {s : Nat} (h1 : mapGet m.callbacks s = none)
    (h2 : mapGet m.asyncCallbacks s = none) : m.del s = m := by
  unfold CallbackMap.del
  rw [h1]
  simp only [Option.isSome_none, Bool.false_eq_true, if_false]
  rw [mapDelete_of_none _ _ h2]

theorem del_get_ne (m : CallbackMap) {j s : Nat} (h : j ≠ s) :
    mapGet (m.del s).callbacks j = mapGet m.callbacks j ∧
      mapGet (m.del s).asyncCallbacks j = mapGet m.asyncCallbacks j := by
  unfold CallbackMap.del
  by_cases hc : (mapGet m.callbacks s).isSome = true
  · simp [if_pos hc, mapGet_delete_ne _ h]
  · simp [if_neg hc, mapGet_delete_ne _ h]

theorem del_inMaps_ne (m : CallbackMap) {j s : Nat} (h : j ≠ s) :
    inMaps (m.del s) j = inMaps m j := by
  unfold inMaps
  rw [(del_get_ne m h).1, (del_get_ne m h).2]

theorem del_inMaps_self (m : CallbackMap) (s : Nat)
    (h1 : (m.callbacks.map Prod.fst).Nodup) (h2 : (m.asyncCallbacks.map Prod.fst).Nodup)
    (h3 : ¬((mapGet m.callbacks s).isSome = true ∧ (mapGet m.asyncCallbacks s).isSome = true)) :
    inMaps (m.del s) s = false := by
  unfold CallbackMap.del inMaps
  by_cases hc : (mapGet m.callbacks s).isSome = true
  · have ha : mapGet m.asyncCallbacks s = none := by
      cases h : mapGet m.asyncCallbacks s with
      | none => rfl
      | some v => exact absurd ⟨hc, by simp [h]⟩ h3
    simp [if_pos hc, mapGet_delete_self _ _ h1, ha]
  · have hcn : mapGet m.callbacks s = none := by
      cases h : mapGet m.callbacks s with
      | none => rfl
      | some v => exact absurd (by simp [h]) hc
    simp [if_neg hc, hcn, mapGet_delete_self _ _ h2]

theorem del_nodup (m : CallbackMap) (s : Nat)
    (h1 : (m.callbacks.map Prod.fst).Nodup) (h2 : (m.asyncCallbacks.map Prod.fst).Nodup) :
    ((m.del s).callbacks.map Prod.fst).Nodup ∧
      ((m.del s).asyncCallbacks.map Prod.fst).Nodup := by
  unfold CallbackMap.del
  by_cases hc : (mapGet m.callbacks s).isSome = true
  · exact ⟨by simpa [if_pos hc] using h1.sublist (keys_delete_sublist m.callbacks s),
      by simpa [if_pos hc] using h2⟩
  · exact ⟨by simpa [if_neg hc] using h1,
      by simpa [if_neg hc] using h2.sublist (keys_delete_sublist m.asyncCallbacks s)⟩

/-! ## Lemmas about `fetchCallback` -/

theorem fetchCallback_fst (st : ServerState) (s : Nat) :
    (fetchCallback st s).1 = (st.cmap.fetch s).1 := by
  unfold fetchCallback
  cases h : (st.cmap.fetch s).1 <;> simp [h]

theorem fetchCallback_none_snd {st : ServerState} {s : Nat}
    (h : (st.cmap.fetch s).1 = none) : (fetchCallback st s).2 = st := by
  unfold fetchCallback
  rw [h]

theorem fetchCallback_some_snd {st : ServerState} {s : Nat} {cb : CallbackItem}
    (h : (st.cmap.fetch s).1 = some cb) :
    (fetchCallback st s).2 =
      { st with cmap := st.cmap.del s, pendingResponses := st.pendingResponses.erase s } := by
  unfold fetchCallback
  rw [h]
  rfl

/-! ## The reachable-state invariant -/

/-- Invariant of all states reachable from `initState`. -/
structure Inv (st : ServerState) : Prop where
  regBound : ∀ p ∈ st.registeredLog, p.1 < st.sequenceNumber
  tokBound : ∀ s ∈ st.tokens, s < st.sequenceNumber
  regNodup : (regSeqs st).Nodup
  syncNodup : (st.cmap.callbacks.map Prod.fst).Nodup
  asyncNodup : (st.cmap.asyncCallbacks.map Prod.fst).Nodup
  notBoth : ∀ s : Nat,
    ¬((mapGet st.cmap.callbacks s).isSome = true ∧ (mapGet st.cmap.asyncCallbacks s).isSome = true)
  balance : ∀ s : Nat,
    resCount s st.events + (inMaps st.cmap s).toNat = ((regSeqs st).contains s).toNat
  pendLen : st.pendingResponses.length ≤ 1
  pendSync : ∀ s ∈ st.pendingResponses, (s, false) ∈ st.registeredLog
  queueReg : ∀ it ∈ st.queue, it.expectsResponse = true → (it.seq, it.isAsync) ∈ st.registeredLog
  flagsSub : ∀ s ∈ st.cancelledFlags, s ∈ st.tokens
  flagsOut : ∀ s ∈ st.cancelledFlags, inMaps st.cmap s = false
  telOk : ∀ s c t, Ev.failure s c t ∈ st.events → (t = true ↔ c ≠ ErrCause.cancelled)

theorem Inv.initState : Inv TSServer.initState := by
  constructor <;> simp [TSServer.initState, regSeqs, resCount, inMaps, mapGet]

theorem Inv.flags_false_of_inMaps {st : ServerState} (hI : Inv st) {s : Nat}
    (h : inMaps st.cmap s = true) : st.cancelledFlags.contains s = false := by
  by_cases hc : s ∈ st.cancelledFlags
  · rw [hI.flagsOut s hc] at h
    cases h
  · exact by simpa using hc

/-- Core lemma: resolving a callback that `CallbackMap.fetch` found (removing
it from the map, appending one resolution record for its sequence number, and
possibly erasing the sequence number from the in-flight set) preserves the
invariant. -/
theorem Inv.resolveCore {st : ServerState} (hI : Inv st) {s : Nat} {cb : CallbackItem}
    (hf : (st.cmap.fetch s).1 = some cb) (e : Ev) (hseq : Ev.seqOf e = s)
    (hok : ∀ c t, e = Ev.failure s c t → (t = true ↔ c ≠ ErrCause.cancelled))
    {p2 : List Nat} (hp : p2 = st.pendingResponses ∨ p2 = st.pendingResponses.erase s) :
    Inv { st with cmap := st.cmap.del s, pendingResponses := p2,
                  events := st.events ++ [e] } := by
  have hm : inMaps st.cmap s = true := inMaps_of_fetch_some hf
  have hdelself : inMaps (st.cmap.del s) s = false :=
    del_inMaps_self st.cmap s hI.syncNodup hI.asyncNodup (hI.notBoth s)
  have hnd := del_nodup st.cmap s hI.syncNodup hI.asyncNodup
  have hpsub : ∀ j ∈ p2, j ∈ st.pendingResponses := by
    rcases hp with rfl | rfl
    · exact fun j hj => hj
    · exact fun j hj => List.mem_of_mem_erase hj
  constructor
  · exact hI.regBound
  · exact hI.tokBound
  · exact hI.regNodup
  · exact hnd.1
  · exact hnd.2
  · intro j
    by_cases hjs : j = s
    · subst hjs
      intro hcontra
      have : inMaps (st.cmap.del j) j = true := by
        unfold inMaps
        rw [hcontra.1]
        rfl
      rw [hdelself] at this
      cases this
    · rw [(del_get_ne st.cmap hjs).1, (del_get_ne st.cmap hjs).2]
      exact hI.notBoth j
  · intro j
    by_cases hjs : j = s
    · subst hjs
      have h1 : resCount j (st.events ++ [e]) = resCount j st.events + 1 := by
        rw [resCount_append, resCount_single_self j e hseq]
      have h3 := hI.balance j
      rw [hm] at h3
      rw [h1, hdelself]
      simp only [Bool.toNat_false, Nat.add_zero]
      simpa using h3
    · have h1 : resCount j (st.events ++ [e]) = resCount j st.events := by
        rw [resCount_append, resCount_single_ne j e (by rw [hseq]; exact fun hh => hjs hh.symm)]
        omega
      have h3 := hI.balance j
      rw [h1, del_inMaps_ne st.cmap hjs]
      exact h3
  · rcases hp with rfl | rfl
    · exact hI.pendLen
    · exact le_trans (List.erase_sublist s st.pendingResponses).length_le hI.pendLen
  · exact fun j hj => hI.pendSync j (hpsub j hj)
  · exact hI.queueReg
  · exact hI.flagsSub
  · intro q hq
    have hbase := hI.flagsOut q hq
    have hqs : q ≠ s := by
      intro hh
      subst hh
      rw [hbase] at hm
      cases hm
    rw [del_inMaps_ne st.cmap hqs]
    exact hbase
  · intro q c t hmem
    rcases List.mem_append.mp hmem with hmem | hmem
    · exact hI.telOk q c t hmem
    · have he : Ev.failure q c t = e := List.mem_singleton.mp hmem
      have hq : q = s := by
        rw [← he] at hseq
        simpa [Ev.seqOf] using hseq
      subst hq
      exact hok c t he.symm

/-- Resolving a fetched callback with `onSuccess` preserves the invariant. -/
theorem Inv.resolveFetchedSuccess {st : ServerState} (hI : Inv st) {s : Nat} {cb : CallbackItem}
    (hf : (st.cmap.fetch s).1 = some cb) {p2 : List Nat}
    (hp : p2 = st.pendingResponses ∨ p2 = st.pendingResponses.erase s) :
    Inv { st with cmap := st.cmap.del s, pendingResponses := p2,
                  events := st.events ++ [Ev.success s] } :=
  hI.resolveCore hf (Ev.success s) rfl (fun _ _ h => nomatch h) hp

/-- Resolving a fetched callback with `onError` for a non-cancellation cause
preserves the invariant (telemetry fires because the callback was still
registered, hence its `wasCancelled` flag is unset). -/
theorem Inv.resolveFetchedError {st : ServerState} (hI : Inv st) {s : Nat} {cb : CallbackItem}
    (hf : (st.cmap.fetch s).1 = some cb) {c : ErrCause} (hc : c ≠ ErrCause.cancelled)
    {p2 : List Nat} (hp : p2 = st.pendingResponses ∨ p2 = st.pendingResponses.erase s) :
    Inv { st with cmap := st.cmap.del s, pendingResponses := p2,
                  events := st.events ++ [Ev.failure s c (!(st.cancelledFlags.contains s))] } := by
  have hflag : st.cancelledFlags.contains s = false :=
    hI.flags_false_of_inMaps (inMaps_of_fetch_some hf)
  refine hI.resolveCore hf (Ev.failure s c (!(st.cancelledFlags.contains s))) rfl ?_ hp
  intro c2 t h
  injection h with h1 h2 h3
  subst h2
  subst h3
  rw [hflag]
  simp [hc]

theorem contains_eq_decide (l : List Nat) (j : Nat) : l.contains j = decide (j ∈ l) := by
  by_cases h : j ∈ l
  · rw [decide_eq_true h]
    exact List.elem_iff.mpr h
  · rw [decide_eq_false h]
    cases hc : l.contains j
    · rfl
    · exact absurd (List.elem_iff.mp hc) h

/-! ## Invariant preservation, operation by operation -/

theorem Inv.writtenReplace {st : ServerState} (hI : Inv st) (w : List Nat) :
    Inv { st with written := w } := by
  constructor
  · exact hI.regBound
  · exact hI.tokBound
  · exact hI.regNodup
  · exact hI.syncNodup
  · exact hI.asyncNodup
  · exact hI.notBoth
  · exact hI.balance
  · exact hI.pendLen
  · exact hI.pendSync
  · exact hI.queueReg
  · exact hI.flagsSub
  · exact hI.flagsOut
  · exact hI.telOk

theorem Inv.queueReplace {st : ServerState} (hI : Inv st) {q2 : List RequestItem}
    (h : ∀ it ∈ q2, it ∈ st.queue) : Inv { st with queue := q2 } := by
  constructor
  · exact hI.regBound
  · exact hI.tokBound
  · exact hI.regNodup
  · exact hI.syncNodup
  · exact hI.asyncNodup
  · exact hI.notBoth
  · exact hI.balance
  · exact hI.pendLen
  · exact hI.pendSync
  · exact fun it hit hexp => hI.queueReg it (h it hit) hexp
  · exact hI.flagsSub
  · exact hI.flagsOut
  · exact hI.telOk

theorem Inv.pendingClear {st : ServerState} (hI : Inv st) :
    Inv { st with pendingResponses := [] } := by
  constructor
  · exact hI.regBound
  · exact hI.tokBound
  · exact hI.regNodup
  · exact hI.syncNodup
  · exact hI.asyncNodup
  · exact hI.notBoth
  · exact hI.balance
  · simp
  · intro s hs
    cases hs
  · exact hI.queueReg
  · exact hI.flagsSub
  · exact hI.flagsOut
  · exact hI.telOk

theorem inv_dispatchResponse {st : ServerState} (hI : Inv st) (r : Nat) (b : Bool) :
    Inv (dispatchResponse r b st) := by
  unfold dispatchResponse
  rw [fetchCallback_fst]
  cases hf : (st.cmap.fetch r).1 with
  | none =>
    rw [fetchCallback_none_snd hf]
    exact hI
  | some cb =>
    rw [fetchCallback_some_snd hf]
    cases b
    · simp only [Bool.false_eq_true, if_false]
      exact hI.resolveFetchedError hf (by decide) (Or.inr rfl)
    · simp only [if_true]
      exact hI.resolveFetchedSuccess hf (Or.inr rfl)

theorem inv_requestCompleted {st : ServerState} (hI : Inv st) (r : Nat) :
    Inv (match (st.cmap.fetch r).1 with
         | none => { st with cmap := (st.cmap.fetch r).2 }
         | some _ => resolveSuccess { st with cmap := (st.cmap.fetch r).2 } r) := by
  cases hf : (st.cmap.fetch r).1 with
  | none =>
    have hp := fetch_none_parts hf
    have he : (st.cmap.fetch r).2 = st.cmap := by
      rw [fetch_snd]
      exact del_eq_self hp.1 hp.2
    rw [he]
    exact hI
  | some cb =>
    rw [fetch_snd]
    exact hI.resolveFetchedSuccess hf (Or.inl rfl)

/-- The write-failure branch of `sendRequest` preserves the invariant. -/
theorem inv_sendFail {st : ServerState} (hI : Inv st) (s : Nat) :
    Inv (match (fetchCallback st s).1 with
         | none => (fetchCallback st s).2
         | some _ => resolveError (fetchCallback st s).2 s ErrCause.writeErr) := by
  rw [fetchCallback_fst]
  cases hf : (st.cmap.fetch s).1 with
  | none =>
    rw [fetchCallback_none_snd hf]
    exact hI
  | some cb =>
    rw [fetchCallback_some_snd hf]
    exact hI.resolveFetchedError hf (by decide) (Or.inr rfl)

theorem inv_sendOne {st : ServerState} (hI : Inv st) (f : Nat → Bool) (item : RequestItem)
    (rest : List RequestItem) (hq : st.queue = item :: rest) (hpend : st.pendingResponses = []) :
    Inv (sendOne f item { st with queue := rest }) := by
  have hIq : Inv { st with queue := rest } :=
    hI.queueReplace fun it hit => by rw [hq]; exact List.mem_cons_of_mem item hit
  have hitem : item ∈ st.queue := by rw [hq]; exact List.mem_cons_self item rest
  simp only [sendOne]
  by_cases hg : (item.expectsResponse && !item.isAsync) = true
  · rw [if_pos hg]
    rw [Bool.and_eq_true, Bool.not_eq_eq_eq_not, Bool.not_true] at hg
    have hIq1 : Inv { st with
        queue := rest
        pendingResponses := setAdd st.pendingResponses item.seq } := by
      constructor
      · exact hIq.regBound
      · exact hIq.tokBound
      · exact hIq.regNodup
      · exact hIq.syncNodup
      · exact hIq.asyncNodup
      · exact hIq.notBoth
      · exact hIq.balance
      · rw [hpend]
        exact Nat.le.refl
      · intro s hs
        rcases mem_setAdd.mp hs with h | h
        · exact hI.pendSync s h
        · subst h
          have h2 := hI.queueReg item hitem hg.1
          rw [hg.2] at h2
          exact h2
      · exact hIq.queueReg
      · exact hIq.flagsSub
      · exact hIq.flagsOut
      · exact hIq.telOk
    by_cases hfail : f item.seq = true
    · rw [if_pos hfail]
      exact inv_sendFail hIq1 item.seq
    · rw [if_neg hfail]
      exact hIq1.writtenReplace _
  · rw [if_neg hg]
    by_cases hfail : f item.seq = true
    · rw [if_pos hfail]
      exact inv_sendFail hIq item.seq
    · rw [if_neg hfail]
      exact hIq.writtenReplace _

theorem inv_sendNextAux (f : Nat → Bool) (fuel : Nat) :
    ∀ st : ServerState, Inv st → Inv (sendNextAux f fuel st) := by
  induction fuel with
  | zero => exact fun st hI => hI
  | succ n ih =>
    intro st hI
    unfold sendNextAux
    by_cases hp : st.pendingResponses.length = 0
    · rw [if_pos hp]
      cases hq : st.queue with
      | nil => exact hI
      | cons item rest =>
        exact ih _ (inv_sendOne hI f item rest hq (List.length_eq_zero.mp hp))
    · rw [if_neg hp]
      exact hI

theorem inv_sendNextRequests (f : Nat → Bool) {st : ServerState} (hI : Inv st) :
    Inv (sendNextRequests f st) :=
  inv_sendNextAux f st.queue.length st hI

theorem contains_append_single_ne (l : List Nat) {j n : Nat} (h : j ≠ n) :
    (l ++ [n]).contains j = l.contains j := by
  by_cases hm : j ∈ l
  · rw [contains_eq_decide, contains_eq_decide, decide_eq_true hm,
      decide_eq_true (List.mem_append.mpr (Or.inl hm))]
  · have h2 : j ∉ l ++ [n] := by simp [hm, h]
    rw [contains_eq_decide, contains_eq_decide, decide_eq_false hm, decide_eq_false h2]

theorem nodup_append_single {l : List Nat} {n : Nat} (h : l.Nodup) (hn : n ∉ l) :
    (l ++ [n]).Nodup := by
  refine List.Nodup.append h (by simp) ?_
  intro x hx hx2
  simp only [List.mem_singleton] at hx2
  subst hx2
  exact hn hx

theorem add_inMaps_self (m : CallbackMap) (s : Nat) (cb : CallbackItem) (b : Bool) :
    inMaps (m.add s cb b) s = true := by
  cases b <;> simp [CallbackMap.add, inMaps, mapGet_set_self]

theorem add_get_ne (m : CallbackMap) {j s : Nat} (h : j ≠ s) (cb : CallbackItem) (b : Bool) :
    mapGet (m.add s cb b).callbacks j = mapGet m.callbacks j ∧
      mapGet (m.add s cb b).asyncCallbacks j = mapGet m.asyncCallbacks j := by
  cases b <;> simp [CallbackMap.add, mapGet_set_ne _ h]

theorem add_inMaps_ne (m : CallbackMap) {j s : Nat} (h : j ≠ s) (cb : CallbackItem) (b : Bool) :
    inMaps (m.add s cb b) j = inMaps m j := by
  unfold inMaps
  rw [(add_get_ne m h cb b).1, (add_get_ne m h cb b).2]

theorem add_nodup (m : CallbackMap) (s : Nat) (cb : CallbackItem) (b : Bool)
    (h1 : (m.callbacks.map Prod.fst).Nodup) (h2 : (m.asyncCallbacks.map Prod.fst).Nodup)
    (hn : inMaps m s = false) :
    ((m.add s cb b).callbacks.map Prod.fst).Nodup ∧
      ((m.add s cb b).asyncCallbacks.map Prod.fst).Nodup := by
  unfold inMaps at hn
  rw [Bool.or_eq_false_iff] at hn
  have hs1 : s ∉ m.callbacks.map Prod.fst := fun hm =>
    by rw [(mapGet_isSome_iff m.callbacks s).mpr hm] at hn; exact absurd hn.1 (by simp)
  have hs2 : s ∉ m.asyncCallbacks.map Prod.fst := fun hm =>
    by rw [(mapGet_isSome_iff m.asyncCallbacks s).mpr hm] at hn; exact absurd hn.2 (by simp)
  cases b
  · exact ⟨by simpa [CallbackMap.add] using nodup_keys_set m.callbacks s cb h1 hs1,
      by simpa [CallbackMap.add] using h2⟩
  · exact ⟨by simpa [CallbackMap.add] using h1,
      by simpa [CallbackMap.add] using nodup_keys_set m.asyncCallbacks s cb h2 hs2⟩

theorem add_notBoth (m : CallbackMap) (s : Nat) (cb : CallbackItem) (b : Bool)
    (hnb : ∀ j : Nat,
      ¬((mapGet m.callbacks j).isSome = true ∧ (mapGet m.asyncCallbacks j).isSome = true))
    (hn : inMaps m s = false) :
    ∀ j : Nat, ¬((mapGet (m.add s cb b).callbacks j).isSome = true ∧
      (mapGet (m.add s cb b).asyncCallbacks j).isSome = true) := by
  unfold inMaps at hn
  rw [Bool.or_eq_false_iff] at hn
  intro j
  by_cases hj : j = s
  · subst hj
    cases b
    · intro hc
      rw [show (m.add j cb false).asyncCallbacks = m.asyncCallbacks from by
        simp [CallbackMap.add]] at hc
      rw [hn.2] at hc
      exact absurd hc.2 (by simp)
    · intro hc
      rw [show (m.add j cb true).callbacks = m.callbacks from by
        simp [CallbackMap.add]] at hc
      rw [hn.1] at hc
      exact absurd hc.1 (by simp)
  · rw [(add_get_ne m hj cb b).1, (add_get_ne m hj cb b).2]
    exact hnb j

/-- Registering a fresh callback (the `expectsResult` branch of `executeImpl`
before the drain loop) preserves the invariant. -/
theorem inv_register {st : ServerState} (hI : Inv st) (a t : Bool) (c : String) :
    Inv { st with
      sequenceNumber := st.sequenceNumber + 1
      cmap := st.cmap.add st.sequenceNumber { startTime := 0, isAsync := a } a
      registeredLog := st.registeredLog ++ [(st.sequenceNumber, a)]
      tokens := if t = true then st.tokens ++ [st.sequenceNumber] else st.tokens
      queue := st.queue ++
        [{ seq := st.sequenceNumber, command := c, expectsResponse := true, isAsync := a }] } := by
  have hnreg : st.sequenceNumber ∉ regSeqs st := by
    intro hm
    rcases List.mem_map.mp hm with ⟨p, hp, hps⟩
    have := hI.regBound p hp
    rw [hps] at this
    exact absurd this (Nat.lt_irrefl _)
  have hcont : (regSeqs st).contains st.sequenceNumber = false := by
    rw [contains_eq_decide]
    exact decide_eq_false hnreg
  have hbal := hI.balance st.sequenceNumber
  rw [hcont] at hbal
  simp only [Bool.toNat_false] at hbal
  have hres : resCount st.sequenceNumber st.events = 0 := by omega
  have hinm : inMaps st.cmap st.sequenceNumber = false := by
    cases hx : inMaps st.cmap st.sequenceNumber
    · rfl
    · rw [hx] at hbal
      simp at hbal
  have hreg2 : ∀ p ∈ st.registeredLog,
      p ∈ st.registeredLog ++ [(st.sequenceNumber, a)] :=
    fun p hp => List.mem_append.mpr (Or.inl hp)
  constructor
  · intro p hp
    rcases List.mem_append.mp hp with hp | hp
    · exact Nat.lt_succ_of_lt (hI.regBound p hp)
    · rw [List.mem_singleton.mp hp]
      exact Nat.lt_succ_self _
  · intro s hs
    by_cases ht : t = true
    · rw [if_pos ht] at hs
      rcases List.mem_append.mp hs with hs | hs
      · exact Nat.lt_succ_of_lt (hI.tokBound s hs)
      · rw [List.mem_singleton.mp hs]
        exact Nat.lt_succ_self _
    · rw [if_neg ht] at hs
      exact Nat.lt_succ_of_lt (hI.tokBound s hs)
  · show ((st.registeredLog ++ [(st.sequenceNumber, a)]).map Prod.fst).Nodup
    rw [List.map_append]
    exact nodup_append_single hI.regNodup hnreg
  · exact (add_nodup st.cmap st.sequenceNumber _ a hI.syncNodup hI.asyncNodup hinm).1
  · exact (add_nodup st.cmap st.sequenceNumber _ a hI.syncNodup hI.asyncNodup hinm).2
  · exact add_notBoth st.cmap st.sequenceNumber _ a hI.notBoth hinm
  · intro j
    show resCount j st.events +
        (inMaps (st.cmap.add st.sequenceNumber { startTime := 0, isAsync := a } a) j).toNat =
      (((st.registeredLog ++ [(st.sequenceNumber, a)]).map Prod.fst).contains j).toNat
    rw [List.map_append]
    by_cases hj : j = st.sequenceNumber
    · rw [hj]
      simp only [List.map_cons, List.map_nil]
      rw [add_inMaps_self, hres]
      have hmem : st.sequenceNumber ∈ st.registeredLog.map Prod.fst ++ [st.sequenceNumber] :=
        List.mem_append.mpr (Or.inr (by simp))
      rw [contains_eq_decide, decide_eq_true hmem]
      rfl
    · rw [add_inMaps_ne st.cmap hj]
      have : (st.registeredLog.map Prod.fst ++ [st.sequenceNumber]).contains j =
          (st.registeredLog.map Prod.fst).contains j := contains_append_single_ne _ hj
      simp only [List.map_cons, List.map_nil]
      rw [this]
      exact hI.balance j
  · exact hI.pendLen
  · exact fun s hs => hreg2 _ (hI.pendSync s hs)
  · intro it hit hexp
    rcases List.mem_append.mp hit with hit | hit
    · exact hreg2 _ (hI.queueReg it hit hexp)
    · rw [List.mem_singleton.mp hit]
      exact List.mem_append.mpr (Or.inr (by simp))
  · intro s hs
    have := hI.flagsSub s hs
    by_cases ht : t = true
    · rw [if_pos ht]
      exact List.mem_append.mpr (Or.inl this)
    · rw [if_neg ht]
      exact this
  · intro s hs
    have hst : s ∈ st.tokens := hI.flagsSub s hs
    have hlt : s < st.sequenceNumber := hI.tokBound s hst
    have hne : s ≠ st.sequenceNumber := Nat.ne_of_lt hlt
    rw [add_inMaps_ne st.cmap hne]
    exact hI.flagsOut s hs
  · exact hI.telOk

/-- Queuing a no-reply command (the `else` branch of `executeImpl`) preserves
the invariant. -/
theorem inv_enqueueNoReply {st : ServerState} (hI : Inv st) (a : Bool) (c : String) :
    Inv { st with
      sequenceNumber := st.sequenceNumber + 1
      queue := st.queue ++
        [{ seq := st.sequenceNumber, command := c, expectsResponse := false, isAsync := a }] } := by
  constructor
  · exact fun p hp => Nat.lt_succ_of_lt (hI.regBound p hp)
  · exact fun s hs => Nat.lt_succ_of_lt (hI.tokBound s hs)
  · exact hI.regNodup
  · exact hI.syncNodup
  · exact hI.asyncNodup
  · exact hI.notBoth
  · exact hI.balance
  · exact hI.pendLen
  · exact hI.pendSync
  · intro it hit hexp
    rcases List.mem_append.mp hit with hit | hit
    · exact hI.queueReg it hit hexp
    · rw [List.mem_singleton.mp hit] at hexp
      cases hexp
  · exact hI.flagsSub
  · exact hI.flagsOut
  · exact hI.telOk

theorem inv_executeImpl {st : ServerState} (hI : Inv st) (c : String) (a e t : Bool)
    (f : Nat → Bool) : Inv (executeImpl c a e t f st) := by
  cases e with
  | true =>
    show Inv (sendNextRequests f { st with
      sequenceNumber := st.sequenceNumber + 1
      cmap := st.cmap.add st.sequenceNumber { startTime := 0, isAsync := a } a
      registeredLog := st.registeredLog ++ [(st.sequenceNumber, a)]
      tokens := if t = true then st.tokens ++ [st.sequenceNumber] else st.tokens
      queue := st.queue ++
        [{ seq := st.sequenceNumber, command := c, expectsResponse := true, isAsync := a }] })
    exact inv_sendNextRequests f (inv_register hI a t c)
  | false =>
    show Inv (sendNextRequests f { st with
      sequenceNumber := st.sequenceNumber + 1
      queue := st.queue ++
        [{ seq := st.sequenceNumber, command := c, expectsResponse := false, isAsync := a }] })
    exact inv_sendNextRequests f (inv_enqueueNoReply hI a c)

/-- State of the engine just after the cancellation-token handler has set the
`wasCancelled` flag for `s` but before `tryCancelRequest`'s `finally` block has
resolved the callback: every invariant clause holds except that `s` itself may
still be registered while flagged. -/
structure CancelPre (Z : ServerState) (s : Nat) : Prop where
  regBound : ∀ p ∈ Z.registeredLog, p.1 < Z.sequenceNumber
  tokBound : ∀ x ∈ Z.tokens, x < Z.sequenceNumber
  regNodup : (regSeqs Z).Nodup
  syncNodup : (Z.cmap.callbacks.map Prod.fst).Nodup
  asyncNodup : (Z.cmap.asyncCallbacks.map Prod.fst).Nodup
  notBoth : ∀ x : Nat,
    ¬((mapGet Z.cmap.callbacks x).isSome = true ∧ (mapGet Z.cmap.asyncCallbacks x).isSome = true)
  balance : ∀ x : Nat,
    resCount x Z.events + (inMaps Z.cmap x).toNat = ((regSeqs Z).contains x).toNat
  pendLen : Z.pendingResponses.length ≤ 1
  pendSync : ∀ x ∈ Z.pendingResponses, (x, false) ∈ Z.registeredLog
  queueReg : ∀ it ∈ Z.queue, it.expectsResponse = true → (it.seq, it.isAsync) ∈ Z.registeredLog
  flagsSub : ∀ x ∈ Z.cancelledFlags, x ∈ Z.tokens
  flagsOutW : ∀ x ∈ Z.cancelledFlags, x ≠ s → inMaps Z.cmap x = false
  flagInt : s ∈ Z.cancelledFlags
  telOk : ∀ x c t, Ev.failure x c t ∈ Z.events → (t = true ↔ c ≠ ErrCause.cancelled)

/-- The `finally` block of `tryCancelRequest` restores the full invariant. -/
theorem inv_cancelResolve {Z : ServerState} {s : Nat} (hP : CancelPre Z s) :
    Inv (match (fetchCallback Z s).1 with
         | none => (fetchCallback Z s).2
         | some _ => resolveError (fetchCallback Z s).2 s ErrCause.cancelled) := by
  rw [fetchCallback_fst]
  cases hf : (Z.cmap.fetch s).1 with
  | none =>
    rw [fetchCallback_none_snd hf]
    have hfp := fetch_none_parts hf
    have hout : inMaps Z.cmap s = false := by
      unfold inMaps
      rw [hfp.1, hfp.2]
      rfl
    exact ⟨hP.regBound, hP.tokBound, hP.regNodup, hP.syncNodup, hP.asyncNodup, hP.notBoth,
      hP.balance, hP.pendLen, hP.pendSync, hP.queueReg, hP.flagsSub,
      fun x hx => by
        by_cases hxs : x = s
        · rw [hxs]; exact hout
        · exact hP.flagsOutW x hx hxs,
      hP.telOk⟩
  | some cb =>
    rw [fetchCallback_some_snd hf]
    show Inv { Z with
      cmap := Z.cmap.del s
      pendingResponses := Z.pendingResponses.erase s
      events := Z.events ++
        [Ev.failure s ErrCause.cancelled (!(Z.cancelledFlags.contains s))] }
    have hm : inMaps Z.cmap s = true := inMaps_of_fetch_some hf
    have hdelself : inMaps (Z.cmap.del s) s = false :=
      del_inMaps_self Z.cmap s hP.syncNodup hP.asyncNodup (hP.notBoth s)
    have hnd := del_nodup Z.cmap s hP.syncNodup hP.asyncNodup
    have hcontains : Z.cancelledFlags.contains s = true := List.elem_iff.mpr hP.flagInt
    constructor
    · exact hP.regBound
    · exact hP.tokBound
    · exact hP.regNodup
    · exact hnd.1
    · exact hnd.2
    · intro j
      by_cases hjs : j = s
      · subst hjs
        intro hcontra
        have h2 : inMaps (Z.cmap.del j) j = true := by
          unfold inMaps
          rw [hcontra.1]
          rfl
        rw [hdelself] at h2
        cases h2
      · rw [(del_get_ne Z.cmap hjs).1, (del_get_ne Z.cmap hjs).2]
        exact hP.notBoth j
    · intro j
      by_cases hjs : j = s
      · subst hjs
        have h1 : resCount j (Z.events ++
            [Ev.failure j ErrCause.cancelled (!(Z.cancelledFlags.contains j))]) =
              resCount j Z.events + 1 := by
          rw [resCount_append,
            resCount_single_self j (Ev.failure j ErrCause.cancelled
              (!(Z.cancelledFlags.contains j))) rfl]
        have h3 := hP.balance j
        rw [hm] at h3
        rw [h1, hdelself]
        simp only [Bool.toNat_false, Nat.add_zero]
        simpa using h3
      · have h1 : resCount j (Z.events ++
            [Ev.failure s ErrCause.cancelled (!(Z.cancelledFlags.contains s))]) =
              resCount j Z.events := by
          rw [resCount_append,
            resCount_single_ne j (Ev.failure s ErrCause.cancelled
              (!(Z.cancelledFlags.contains s))) (fun hh => hjs hh.symm)]
          omega
        rw [h1, del_inMaps_ne Z.cmap hjs]
        exact hP.balance j
    · exact le_trans (List.erase_sublist s Z.pendingResponses).length_le hP.pendLen
    · exact fun x hx => hP.pendSync x (List.mem_of_mem_erase hx)
    · exact hP.queueReg
    · exact hP.flagsSub
    · intro x hx
      by_cases hxs : x = s
      · rw [hxs]
        exact hdelself
      · rw [del_inMaps_ne Z.cmap hxs]
        exact hP.flagsOutW x hx hxs
    · intro x c t hmem
      rcases List.mem_append.mp hmem with hmem | hmem
      · exact hP.telOk x c t hmem
      · have he := List.mem_singleton.mp hmem
        injection he with he1 he2 he3
        subst he2
        subst he3
        constructor
        · intro ht
          rw [hcontains] at ht
          cases ht
        · intro hc
          exact absurd rfl hc

/-- The state reached right after setting the `wasCancelled` flag, with the
queue possibly shrunk by `tryCancelPendingRequest`, satisfies `CancelPre`. -/
theorem cancelPre_mk {st : ServerState} (hI : Inv st) (s : Nat) (hs : s ∈ st.tokens)
    {q : List RequestItem} (hq : ∀ it ∈ q, it ∈ st.queue) :
    CancelPre { st with
      cancelledFlags := setAdd st.cancelledFlags s
      queue := q } s := by
  constructor
  · exact hI.regBound
  · exact hI.tokBound
  · exact hI.regNodup
  · exact hI.syncNodup
  · exact hI.asyncNodup
  · exact hI.notBoth
  · exact hI.balance
  · exact hI.pendLen
  · exact hI.pendSync
  · exact fun it hit hexp => hI.queueReg it (hq it hit) hexp
  · intro x hx
    rcases mem_setAdd.mp hx with hx | hx
    · exact hI.flagsSub x hx
    · rw [hx]
      exact hs
  · intro x hx hxs
    rcases mem_setAdd.mp hx with hx | hx
    · exact hI.flagsOut x hx
    · exact absurd hx hxs
  · exact mem_setAdd.mpr (Or.inr rfl)
  · exact hI.telOk

theorem inv_tryCancelFlagged {st : ServerState} (hI : Inv st) (s : Nat) (hs : s ∈ st.tokens) :
    Inv (tryCancelRequest s { st with cancelledFlags := setAdd st.cancelledFlags s }) := by
  have hsub : ∀ it ∈ (tryCancelPendingRequest st.queue s).2, it ∈ st.queue :=
    fun it hit => (cancelPending_sublist st.queue s).subset hit
  have hid : ∀ it ∈ st.queue, it ∈ st.queue := fun it hit => hit
  simp only [tryCancelRequest]
  by_cases hr : (tryCancelPendingRequest st.queue s).1 = true
  · rw [if_pos hr]
    exact inv_cancelResolve (cancelPre_mk hI s hs hsub)
  · rw [if_neg hr, ite_self]
    exact inv_cancelResolve (cancelPre_mk hI s hs hid)

theorem inv_cancelToken {st : ServerState} (hI : Inv st) (s : Nat) : Inv (cancelToken s st) := by
  unfold cancelToken
  by_cases hs : st.tokens.contains s = true
  · rw [if_pos hs]
    exact inv_tryCancelFlagged hI s (List.elem_iff.mp hs)
  · rw [if_neg hs]
    exact hI

/-! ## `destroy` and the lifecycle handlers -/

theorem destroyList_events (cause : ErrCause) (l : List (Nat × CallbackItem))
    (st : ServerState) :
    (destroyList cause l st).events = st.events ++
      (l.map fun p => Ev.failure p.1 cause (!(st.cancelledFlags.contains p.1))) := by
  induction l generalizing st with
  | nil => simp [destroyList]
  | cons p rest ih =>
    obtain ⟨s, cb⟩ := p
    simp only [destroyList]
    rw [ih]
    simp [resolveError]

theorem destroyList_frame (cause : ErrCause) (l : List (Nat × CallbackItem))
    (st : ServerState) :
    (destroyList cause l st).queue = st.queue ∧
    (destroyList cause l st).sequenceNumber = st.sequenceNumber ∧
    (destroyList cause l st).cmap = st.cmap ∧
    (destroyList cause l st).pendingResponses = st.pendingResponses ∧
    (destroyList cause l st).registeredLog = st.registeredLog ∧
    (destroyList cause l st).tokens = st.tokens ∧
    (destroyList cause l st).cancelledFlags = st.cancelledFlags ∧
    (destroyList cause l st).written = st.written ∧
    (destroyList cause l st).cancellationPipe = st.cancellationPipe := by
  induction l generalizing st with
  | nil => exact ⟨rfl, rfl, rfl, rfl, rfl, rfl, rfl, rfl, rfl⟩
  | cons p rest ih =>
    obtain ⟨s, cb⟩ := p
    simp only [destroyList]
    exact ih (resolveError st s cause)

theorem destroyList_queue (cause : ErrCause) (l : List (Nat × CallbackItem)) (st : ServerState) :
    (destroyList cause l st).queue = st.queue := (destroyList_frame cause l st).1

theorem destroyList_seqNum (cause : ErrCause) (l : List (Nat × CallbackItem)) (st : ServerState) :
    (destroyList cause l st).sequenceNumber = st.sequenceNumber :=
  (destroyList_frame cause l st).2.1

theorem destroyList_cmap (cause : ErrCause) (l : List (Nat × CallbackItem)) (st : ServerState) :
    (destroyList cause l st).cmap = st.cmap := (destroyList_frame cause l st).2.2.1

theorem destroyList_pending (cause : ErrCause) (l : List (Nat × CallbackItem))
    (st : ServerState) :
    (destroyList cause l st).pendingResponses = st.pendingResponses :=
  (destroyList_frame cause l st).2.2.2.1

theorem destroyList_regLog (cause : ErrCause) (l : List (Nat × CallbackItem)) (st : ServerState) :
    (destroyList cause l st).registeredLog = st.registeredLog :=
  (destroyList_frame cause l st).2.2.2.2.1

theorem destroyList_tokens (cause : ErrCause) (l : List (Nat × CallbackItem)) (st : ServerState) :
    (destroyList cause l st).tokens = st.tokens := (destroyList_frame cause l st).2.2.2.2.2.1

theorem destroyList_flags (cause : ErrCause) (l : List (Nat × CallbackItem)) (st : ServerState) :
    (destroyList cause l st).cancelledFlags = st.cancelledFlags :=
  (destroyList_frame cause l st).2.2.2.2.2.2.1

theorem destroyList_written (cause : ErrCause) (l : List (Nat × CallbackItem))
    (st : ServerState) :
    (destroyList cause l st).written = st.written :=
  (destroyList_frame cause l st).2.2.2.2.2.2.2.1

theorem destroyList_pipe (cause : ErrCause) (l : List (Nat × CallbackItem)) (st : ServerState) :
    (destroyList cause l st).cancellationPipe = st.cancellationPipe :=
  (destroyList_frame cause l st).2.2.2.2.2.2.2.2

theorem serverStateExt {a b : ServerState} (h1 : a.queue = b.queue)
    (h2 : a.sequenceNumber = b.sequenceNumber) (h3 : a.cmap = b.cmap)
    (h4 : a.pendingResponses = b.pendingResponses) (h5 : a.cancellationPipe = b.cancellationPipe)
    (h6 : a.written = b.written) (h7 : a.events = b.events)
    (h8 : a.registeredLog = b.registeredLog) (h9 : a.tokens = b.tokens)
    (h10 : a.cancelledFlags = b.cancelledFlags) : a = b := by
  cases a
  cases b
  simp only at h1 h2 h3 h4 h5 h6 h7 h8 h9 h10
  subst h1
  subst h2
  subst h3
  subst h4
  subst h5
  subst h6
  subst h7
  subst h8
  subst h9
  subst h10
  rfl

/-- Closed form of `destroy`: one failure record per registered callback,
synchronous partition first, then both partitions cleared. -/
theorem destroy_eq (cause : ErrCause) (st : ServerState) :
    destroy cause st = { st with
      cmap := { callbacks := [], asyncCallbacks := [] }
      events := (st.events ++
        (st.cmap.callbacks.map fun p =>
          Ev.failure p.1 cause (!(st.cancelledFlags.contains p.1)))) ++
        (st.cmap.asyncCallbacks.map fun p =>
          Ev.failure p.1 cause (!(st.cancelledFlags.contains p.1))) } := by
  simp only [destroy]
  apply serverStateExt
  · show (destroyList cause _ _).queue = st.queue
    rw [destroyList_queue, destroyList_queue]
  · show (destroyList cause _ _).sequenceNumber = st.sequenceNumber
    rw [destroyList_seqNum, destroyList_seqNum]
  · rfl
  · show (destroyList cause _ _).pendingResponses = st.pendingResponses
    rw [destroyList_pending, destroyList_pending]
  · show (destroyList cause _ _).cancellationPipe = st.cancellationPipe
    rw [destroyList_pipe, destroyList_pipe]
  · show (destroyList cause _ _).written = st.written
    rw [destroyList_written, destroyList_written]
  · show (destroyList cause _ _).events = _
    rw [destroyList_events, destroyList_cmap, destroyList_flags, destroyList_events]
  · show (destroyList cause _ _).registeredLog = st.registeredLog
    rw [destroyList_regLog, destroyList_regLog]
  · show (destroyList cause _ _).tokens = st.tokens
    rw [destroyList_tokens, destroyList_tokens]
  · show (destroyList cause _ _).cancelledFlags = st.cancelledFlags
    rw [destroyList_flags, destroyList_flags]

theorem countP_beq_nodup (j : Nat) : ∀ keys : List Nat, keys.Nodup →
    keys.countP (fun x => x == j) = (decide (j ∈ keys)).toNat := by
  intro keys
  induction keys with
  | nil => intro h; rfl
  | cons k rest ih =>
    intro h
    rw [List.countP_cons]
    rcases List.nodup_cons.mp h with ⟨hk, hnd⟩
    rw [ih hnd]
    by_cases hkj : k = j
    · subst hkj
      rw [decide_eq_false hk]
      rw [decide_eq_true (List.mem_cons_self k rest)]
      simp
    · have hbeq : (k == j) = false := by simpa using hkj
      rw [hbeq]
      by_cases hjr : j ∈ rest
      · rw [decide_eq_true hjr, decide_eq_true (List.mem_cons_of_mem k hjr)]
        simp
      · have hnc : j ∉ k :: rest := by
          intro hmem
          rcases List.mem_cons.mp hmem with hmem | hmem
          · exact hkj hmem.symm
          · exact hjr hmem
        rw [decide_eq_false hjr, decide_eq_false hnc]
        simp

theorem resCount_failList (j : Nat) (cause : ErrCause) (flags : List Nat) :
    ∀ l : List (Nat × CallbackItem),
      resCount j (l.map fun p => Ev.failure p.1 cause (!(flags.contains p.1))) =
        (l.map Prod.fst).countP (fun x => x == j) := by
  intro l
  induction l with
  | nil => rfl
  | cons p rest ih =>
    obtain ⟨s, cb⟩ := p
    simp only [List.map_cons]
    unfold resCount at ih ⊢
    rw [List.countP_cons, List.countP_cons, ih]
    rfl

theorem keys_countP_eq_inMaps (m : CallbackMap) (j : Nat)
    (h1 : (m.callbacks.map Prod.fst).Nodup) (h2 : (m.asyncCallbacks.map Prod.fst).Nodup)
    (h3 : ¬((mapGet m.callbacks j).isSome = true ∧ (mapGet m.asyncCallbacks j).isSome = true)) :
    (m.callbacks.map Prod.fst).countP (fun x => x == j) +
      (m.asyncCallbacks.map Prod.fst).countP (fun x => x == j) = (inMaps m j).toNat := by
  rw [countP_beq_nodup j _ h1, countP_beq_nodup j _ h2]
  unfold inMaps
  by_cases ha : j ∈ m.callbacks.map Prod.fst
  · have hsync : (mapGet m.callbacks j).isSome = true := (mapGet_isSome_iff _ _).mpr ha
    have hasync : (mapGet m.asyncCallbacks j).isSome = false := by
      cases hx : (mapGet m.asyncCallbacks j).isSome
      · rfl
      · exact absurd ⟨hsync, hx⟩ h3
    have hb : j ∉ m.asyncCallbacks.map Prod.fst := fun hm => by
      rw [(mapGet_isSome_iff _ _).mpr hm] at hasync
      cases hasync
    rw [decide_eq_true ha, decide_eq_false hb, hsync, hasync]
    rfl
  · have hsync : (mapGet m.callbacks j).isSome = false := by
      cases hx : (mapGet m.callbacks j).isSome
      · rfl
      · exact absurd ((mapGet_isSome_iff _ _).mp hx) ha
    rw [decide_eq_false ha, hsync]
    by_cases hb : j ∈ m.asyncCallbacks.map Prod.fst
    · rw [decide_eq_true hb, (mapGet_isSome_iff _ _).mpr hb]
      rfl
    · have hasync : (mapGet m.asyncCallbacks j).isSome = false := by
        cases hx : (mapGet m.asyncCallbacks j).isSome
        · rfl
        · exact absurd ((mapGet_isSome_iff _ _).mp hx) hb
      rw [decide_eq_false hb, hasync]
      rfl

theorem destroy_telOk_aux {st : ServerState} (hI : Inv st) {cause : ErrCause}
    (hc : cause ≠ ErrCause.cancelled) {part : List (Nat × CallbackItem)}
    (hpart : ∀ p ∈ part, inMaps st.cmap p.1 = true) :
    ∀ x c t, Ev.failure x c t ∈
      (part.map fun p => Ev.failure p.1 cause (!(st.cancelledFlags.contains p.1))) →
      (t = true ↔ c ≠ ErrCause.cancelled) := by
  intro x c t hmem
  rcases List.mem_map.mp hmem with ⟨p, hp, heq⟩
  injection heq with h1 h2 h3
  subst h2
  constructor
  · intro _
    exact hc
  · intro _
    rw [← h3]
    rw [hI.flags_false_of_inMaps (hpart p hp)]
    rfl

theorem inv_destroyGeneric {st : ServerState} (hI : Inv st) {cause : ErrCause}
    (hc : cause ≠ ErrCause.cancelled) :
    Inv { st with
      cmap := { callbacks := [], asyncCallbacks := [] }
      events := (st.events ++
        (st.cmap.callbacks.map fun p =>
          Ev.failure p.1 cause (!(st.cancelledFlags.contains p.1)))) ++
        (st.cmap.asyncCallbacks.map fun p =>
          Ev.failure p.1 cause (!(st.cancelledFlags.contains p.1))) } := by
  have hsyncpart : ∀ p ∈ st.cmap.callbacks, inMaps st.cmap p.1 = true := by
    intro p hp
    unfold inMaps
    rw [(mapGet_isSome_iff _ _).mpr (List.mem_map_of_mem Prod.fst hp)]
    rfl
  have hasyncpart : ∀ p ∈ st.cmap.asyncCallbacks, inMaps st.cmap p.1 = true := by
    intro p hp
    unfold inMaps
    rw [(mapGet_isSome_iff _ _).mpr (List.mem_map_of_mem Prod.fst hp)]
    simp
  constructor
  · exact hI.regBound
  · exact hI.tokBound
  · exact hI.regNodup
  · simp
  · simp
  · intro j hj
    rw [show mapGet ([] : List (Nat × CallbackItem)) j = none from rfl] at hj
    exact absurd hj.1 (by simp)
  · intro j
    have h1 : resCount j ((st.events ++
        (st.cmap.callbacks.map fun p =>
          Ev.failure p.1 cause (!(st.cancelledFlags.contains p.1)))) ++
        (st.cmap.asyncCallbacks.map fun p =>
          Ev.failure p.1 cause (!(st.cancelledFlags.contains p.1)))) =
        resCount j st.events +
          (st.cmap.callbacks.map Prod.fst).countP (fun x => x == j) +
          (st.cmap.asyncCallbacks.map Prod.fst).countP (fun x => x == j) := by
      rw [resCount_append, resCount_append, resCount_failList, resCount_failList]
    have h2 := keys_countP_eq_inMaps st.cmap j hI.syncNodup hI.asyncNodup (hI.notBoth j)
    have h3 := hI.balance j
    have h4 : inMaps { callbacks := [], asyncCallbacks := [] } j = false := rfl
    rw [h4, h1]
    simp only [Bool.toNat_false, Nat.add_zero]
    simp only [regSeqs] at h3 ⊢
    omega
  · exact hI.pendLen
  · exact hI.pendSync
  · exact hI.queueReg
  · exact hI.flagsSub
  · intro x hx
    rfl
  · intro x c t hmem
    rcases List.mem_append.mp hmem with hmem | hmem
    · rcases List.mem_append.mp hmem with hmem | hmem
      · exact hI.telOk x c t hmem
      · exact destroy_telOk_aux hI hc hsyncpart x c t hmem
    · exact destroy_telOk_aux hI hc hasyncpart x c t hmem

theorem inv_destroy {st : ServerState} (hI : Inv st) {cause : ErrCause}
    (hc : cause ≠ ErrCause.cancelled) : Inv (destroy cause st) := by
  rw [destroy_eq]
  exact inv_destroyGeneric hI hc

theorem inv_handleExit {st : ServerState} (hI : Inv st) : Inv (handleExit st) :=
  inv_destroy hI (show ErrCause.serverExited ≠ ErrCause.cancelled by decide)

theorem inv_handleError {st : ServerState} (hI : Inv st) : Inv (handleError st) :=
  inv_destroy hI (show ErrCause.serverErrored ≠ ErrCause.cancelled by decide)

theorem inv_dispose {st : ServerState} (hI : Inv st) : Inv (dispose st) := by
  show Inv { destroy ErrCause.serverDisposed st with pendingResponses := [] }
  exact (inv_destroy hI
    (show ErrCause.serverDisposed ≠ ErrCause.cancelled by decide)).pendingClear

/-! ## The invariant holds in every reachable state -/

theorem inv_step {st : ServerState} (hI : Inv st) (op : Op) : Inv (step op st) := by
  cases op with
  | execute c a e t f => exact inv_executeImpl hI c a e t f
  | cancel s => exact inv_cancelToken hI s
  | dispatch m f =>
    cases m with
    | response r b => exact inv_sendNextRequests f (inv_dispatchResponse hI r b)
    | event n r =>
      simp only [step, dispatchMessage]
      by_cases hn : n = "requestCompleted"
      · rw [if_pos hn]
        exact inv_sendNextRequests f (inv_requestCompleted hI r)
      · rw [if_neg hn]
        exact inv_sendNextRequests f hI
    | unknown => exact inv_sendNextRequests f hI
  | exit => exact inv_handleExit hI
  | error => exact inv_handleError hI
  | dispose => exact inv_dispose hI

theorem inv_run (ops : List Op) : ∀ st : ServerState, Inv st → Inv (run ops st) := by
  induction ops with
  | nil => exact fun st hI => hI
  | cons op rest ih => exact fun st hI => ih _ (inv_step hI op)

/-! ## Observational lemmas about the drain loop, dispatch and cancellation -/

theorem sendNextAux_blocked (f : Nat → Bool) (fuel : Nat) (st : ServerState)
    (h : st.pendingResponses ≠ []) : sendNextAux f fuel st = st := by
  cases fuel with
  | zero => rfl
  | succ n =>
    unfold sendNextAux
    rw [if_neg fun hc => h (List.length_eq_zero.mp hc)]

theorem sendNextRequests_blocked (f : Nat → Bool) (st : ServerState)
    (h : st.pendingResponses ≠ []) : sendNextRequests f st = st :=
  sendNextAux_blocked f st.queue.length st h

theorem fetchCallback_queue (st : ServerState) (s : Nat) :
    (fetchCallback st s).2.queue = st.queue := by
  unfold fetchCallback
  cases h : (st.cmap.fetch s).1
  · rfl
  · rfl

theorem fetchCallback_written (st : ServerState) (s : Nat) :
    (fetchCallback st s).2.written = st.written := by
  unfold fetchCallback
  cases h : (st.cmap.fetch s).1
  · rfl
  · rfl

theorem fetchCallback_pending_sub {st : ServerState} {s a : Nat}
    (h : a ∉ st.pendingResponses) : a ∉ (fetchCallback st s).2.pendingResponses := by
  cases hf : (st.cmap.fetch s).1
  · rw [fetchCallback_none_snd hf]
    exact h
  · rw [fetchCallback_some_snd hf]
    exact fun hm => h (List.mem_of_mem_erase hm)

theorem sendFail_queue (st : ServerState) (s : Nat) :
    (match (fetchCallback st s).1 with
     | none => (fetchCallback st s).2
     | some _ => resolveError (fetchCallback st s).2 s ErrCause.writeErr).queue = st.queue := by
  cases h : (fetchCallback st s).1
  · exact fetchCallback_queue st s
  · exact fetchCallback_queue st s

theorem sendFail_pending_sub {st : ServerState} {s a : Nat} (h : a ∉ st.pendingResponses) :
    a ∉ (match (fetchCallback st s).1 with
         | none => (fetchCallback st s).2
         | some _ => resolveError (fetchCallback st s).2 s
             ErrCause.writeErr).pendingResponses := by
  cases hf : (fetchCallback st s).1
  · exact fetchCallback_pending_sub h
  · exact fetchCallback_pending_sub h

theorem sendOne_queue (f : Nat → Bool) (item : RequestItem) (st : ServerState) :
    (sendOne f item st).queue = st.queue := by
  simp only [sendOne]
  by_cases hg : (item.expectsResponse && !item.isAsync) = true
  · rw [if_pos hg]
    by_cases hfail : f item.seq = true
    · rw [if_pos hfail]
      exact sendFail_queue _ item.seq
    · rw [if_neg hfail]
  · rw [if_neg hg]
    by_cases hfail : f item.seq = true
    · rw [if_pos hfail]
      exact sendFail_queue _ item.seq
    · rw [if_neg hfail]

theorem sendOne_pending_sub (f : Nat → Bool) (item : RequestItem) {st : ServerState} {a : Nat}
    (h : a ∉ st.pendingResponses) (hne : a ≠ item.seq) :
    a ∉ (sendOne f item st).pendingResponses := by
  simp only [sendOne]
  by_cases hg : (item.expectsResponse && !item.isAsync) = true
  · rw [if_pos hg]
    have h1 : a ∉ setAdd st.pendingResponses item.seq := by
      intro hm
      rcases mem_setAdd.mp hm with hm | hm
      · exact h hm
      · exact hne hm
    by_cases hfail : f item.seq = true
    · rw [if_pos hfail]
      exact sendFail_pending_sub h1
    · rw [if_neg hfail]
      exact h1
  · rw [if_neg hg]
    by_cases hfail : f item.seq = true
    · rw [if_pos hfail]
      exact sendFail_pending_sub h
    · rw [if_neg hfail]
      exact h

theorem sendNextAux_not_mem_pending (f : Nat → Bool) (a : Nat) :
    ∀ (fuel : Nat) (st : ServerState), a ∉ st.pendingResponses →
      a ∉ st.queue.map RequestItem.seq → a ∉ (sendNextAux f fuel st).pendingResponses := by
  intro fuel
  induction fuel with
  | zero => exact fun st h1 _ => h1
  | succ n ih =>
    intro st h1 h2
    unfold sendNextAux
    by_cases hp : st.pendingResponses.length = 0
    · rw [if_pos hp]
      cases hq : st.queue with
      | nil => exact h1
      | cons item rest =>
        have hne : a ≠ item.seq := by
          intro hh
          apply h2
          rw [hq, hh]
          exact List.mem_map_of_mem RequestItem.seq (List.mem_cons_self item rest)
        have hrest : a ∉ rest.map RequestItem.seq := by
          intro hh
          apply h2
          rw [hq]
          simp only [List.map_cons, List.mem_cons]
          exact Or.inr hh
        refine ih _ (sendOne_pending_sub f item h1 hne) ?_
        rw [sendOne_queue]
        exact hrest
    · rw [if_neg hp]
      exact h1

theorem sendNextAux_post (f : Nat → Bool) : ∀ (fuel : Nat) (st : ServerState),
    st.queue.length ≤ fuel →
      (sendNextAux f fuel st).pendingResponses = [] → (sendNextAux f fuel st).queue = [] := by
  intro fuel
  induction fuel with
  | zero =>
    intro st hlen _
    exact List.length_eq_zero.mp (Nat.le_zero.mp hlen)
  | succ n ih =>
    intro st hlen
    unfold sendNextAux
    by_cases hpe : st.pendingResponses.length = 0
    · rw [if_pos hpe]
      cases hq : st.queue with
      | nil =>
        intro _
        exact hq
      | cons item rest =>
        apply ih
        rw [sendOne_queue]
        show rest.length ≤ n
        have : st.queue.length = rest.length + 1 := by rw [hq]; rfl
        omega
    · rw [if_neg hpe]
      intro hp
      exact absurd (by rw [hp]; rfl) hpe

theorem sendNextRequests_post (f : Nat → Bool) (st : ServerState) :
    (sendNextRequests f st).pendingResponses = [] → (sendNextRequests f st).queue = [] :=
  sendNextAux_post f st.queue.length st (Nat.le_refl _)

theorem dispatchResponse_written (r : Nat) (b : Bool) (st : ServerState) :
    (dispatchResponse r b st).written = st.written := by
  unfold dispatchResponse
  cases hf : (fetchCallback st r).1
  · exact fetchCallback_written st r
  · cases b
    · exact fetchCallback_written st r
    · exact fetchCallback_written st r

theorem dispatchResponse_queue (r : Nat) (b : Bool) (st : ServerState) :
    (dispatchResponse r b st).queue = st.queue := by
  unfold dispatchResponse
  cases hf : (fetchCallback st r).1
  · exact fetchCallback_queue st r
  · cases b
    · exact fetchCallback_queue st r
    · exact fetchCallback_queue st r

theorem cancelResolve_written (st : ServerState) (s : Nat) :
    (match (fetchCallback st s).1 with
     | none => (fetchCallback st s).2
     | some _ => resolveError (fetchCallback st s).2 s ErrCause.cancelled).written =
      st.written := by
  cases h : (fetchCallback st s).1
  · exact fetchCallback_written st s
  · exact fetchCallback_written st s

theorem tryCancelRequest_written (s : Nat) (st : ServerState) :
    (tryCancelRequest s st).written = st.written := by
  simp only [tryCancelRequest]
  by_cases hr : (tryCancelPendingRequest st.queue s).1 = true
  · rw [if_pos hr]
    exact cancelResolve_written _ s
  · rw [if_neg hr, ite_self]
    exact cancelResolve_written st s

theorem cancelToken_written (s : Nat) (st : ServerState) :
    (cancelToken s st).written = st.written := by
  unfold cancelToken
  by_cases hs : st.tokens.contains s = true
  · rw [if_pos hs]
    exact tryCancelRequest_written s _
  · rw [if_neg hs]

theorem destroy_written (cause : ErrCause) (st : ServerState) :
    (destroy cause st).written = st.written := by
  rw [destroy_eq]

theorem sendNextRequests_blocked_written (f : Nat → Bool) (st : ServerState)
    (h : st.pendingResponses ≠ []) : (sendNextRequests f st).written = st.written := by
  rw [sendNextRequests_blocked f st h]

theorem executeImpl_blocked_written (c : String) (a2 e t : Bool) (f : Nat → Bool)
    (st : ServerState) (h : st.pendingResponses ≠ []) :
    (executeImpl c a2 e t f st).written = st.written := by
  cases e with
  | true =>
    show (sendNextRequests f { st with
      sequenceNumber := st.sequenceNumber + 1
      cmap := st.cmap.add st.sequenceNumber { startTime := 0, isAsync := a2 } a2
      registeredLog := st.registeredLog ++ [(st.sequenceNumber, a2)]
      tokens := if t = true then st.tokens ++ [st.sequenceNumber] else st.tokens
      queue := st.queue ++
        [{ seq := st.sequenceNumber, command := c, expectsResponse := true,
           isAsync := a2 }] }).written = st.written
    exact sendNextRequests_blocked_written f _ h
  | false =>
    show (sendNextRequests f { st with
      sequenceNumber := st.sequenceNumber + 1
      queue := st.queue ++
        [{ seq := st.sequenceNumber, command := c, expectsResponse := false,
           isAsync := a2 }] }).written = st.written
    exact sendNextRequests_blocked_written f _ h

theorem fetch_some_of_inMaps {m : CallbackMap} {s : Nat} (h : inMaps m s = true) :
    ((m.fetch s).1).isSome = true := by
  unfold inMaps at h
  unfold CallbackMap.fetch
  cases hc : mapGet m.callbacks s with
  | some v => simp [Option.orElse]
  | none =>
    rw [hc] at h
    simp only [Option.isSome_none, Bool.false_or] at h
    simp [Option.orElse, h]

/-- Observable effect of the `finally` block of `tryCancelRequest` when a
callback is still registered: one cancellation failure record is appended and
the sequence number leaves the in-flight set. -/
theorem cancelResolve_spec {Z : ServerState} {s : Nat} {cb : CallbackItem}
    (hf : (Z.cmap.fetch s).1 = some cb) (hnd : Z.pendingResponses.Nodup) :
    (match (fetchCallback Z s).1 with
     | none => (fetchCallback Z s).2
     | some _ => resolveError (fetchCallback Z s).2 s ErrCause.cancelled).events =
      Z.events ++ [Ev.failure s ErrCause.cancelled (!(Z.cancelledFlags.contains s))] ∧
    s ∉ (match (fetchCallback Z s).1 with
     | none => (fetchCallback Z s).2
     | some _ => resolveError (fetchCallback Z s).2 s
         ErrCause.cancelled).pendingResponses := by
  rw [fetchCallback_fst, hf]
  constructor
  · show (resolveError (fetchCallback Z s).2 s ErrCause.cancelled).events = _
    rw [show (resolveError (fetchCallback Z s).2 s ErrCause.cancelled).events =
      (fetchCallback Z s).2.events ++
        [Ev.failure s ErrCause.cancelled
          (!((fetchCallback Z s).2.cancelledFlags.contains s))] from rfl]
    rw [fetchCallback_some_snd hf]
  · show s ∉ (resolveError (fetchCallback Z s).2 s ErrCause.cancelled).pendingResponses
    rw [show (resolveError (fetchCallback Z s).2 s ErrCause.cancelled).pendingResponses =
      (fetchCallback Z s).2.pendingResponses from rfl]
    rw [fetchCallback_some_snd hf]
    exact hnd.not_mem_erase

theorem mem_pending_sendNextRequests {f : Nat → Bool} {X : ServerState} {r : Nat}
    (h : r ∈ X.pendingResponses) : r ∈ (sendNextRequests f X).pendingResponses := by
  rw [sendNextRequests_blocked f X (List.ne_nil_of_mem h)]
  exact h

/-- While a synchronous command `a` is in flight and not also queued, a step
that leaves `a` unresolved writes nothing to the worker. -/
theorem step_written_frozen {st : ServerState} {op : Op} {a : Nat}
    (hq : a ∉ st.queue.map RequestItem.seq) (h1 : a ∈ st.pendingResponses)
    (h2 : a ∈ (step op st).pendingResponses) : (step op st).written = st.written := by
  have hne : st.pendingResponses ≠ [] := List.ne_nil_of_mem h1
  cases op with
  | execute c a2 e t f => exact executeImpl_blocked_written c a2 e t f st hne
  | cancel s => exact cancelToken_written s st
  | dispatch m f =>
    cases m with
    | response r b =>
      show (sendNextRequests f (dispatchResponse r b st)).written = st.written
      by_cases hin : a ∈ (dispatchResponse r b st).pendingResponses
      · rw [sendNextRequests_blocked f _ (List.ne_nil_of_mem hin)]
        exact dispatchResponse_written r b st
      · exfalso
        have hq1 : a ∉ (dispatchResponse r b st).queue.map RequestItem.seq := by
          rw [dispatchResponse_queue]
          exact hq
        exact sendNextAux_not_mem_pending f a (dispatchResponse r b st).queue.length
          (dispatchResponse r b st) hin hq1 h2
    | event n r =>
      simp only [step, dispatchMessage]
      by_cases hn : n = "requestCompleted"
      · rw [if_pos hn]
        cases hfr : (st.cmap.fetch r).1 with
        | none => exact sendNextRequests_blocked_written f _ hne
        | some cb => exact sendNextRequests_blocked_written f _ hne
      · rw [if_neg hn]
        exact sendNextRequests_blocked_written f st hne
    | unknown => exact sendNextRequests_blocked_written f st hne
  | exit => exact destroy_written ErrCause.serverExited st
  | error => exact destroy_written ErrCause.serverErrored st
  | dispose =>
    show ({ destroy ErrCause.serverDisposed st with pendingResponses := [] }).written = st.written
    exact destroy_written ErrCause.serverDisposed st

theorem run_append (l1 l2 : List Op) (st : ServerState) :
    run (l1 ++ l2) st = run l2 (run l1 st) := by
  induction l1 generalizing st with
  | nil => rfl
  | cons op rest ih =>
    simp only [List.cons_append, run]
    exact ih (step op st)

/-! ## Claim theorems -/

/-- Claim C1: for every sequence of engine operations (submissions with
`expectsReply`, dispatched responses and completion events, cancellations,
write failures, worker exit/error) followed by a final `dispose`, every
PendingOutcome that was registered has exactly one of its continuations
(`onSuccess` or `onError`) invoked exactly once — `resCount` counts the
invocations of both continuations for its sequence number — and after the
final dispose both partitions of the callback registry are empty. -/
theorem c1_outcomes_resolved_exactly_once (ops : List Op) :
    ((run (ops ++ [Op.dispose]) initState).cmap.callbacks = [] ∧
      (run (ops ++ [Op.dispose]) initState).cmap.asyncCallbacks = []) ∧
    ∀ p ∈ (run (ops ++ [Op.dispose]) initState).registeredLog,
      resCount p.1 (run (ops ++ [Op.dispose]) initState).events = 1 := by
  have hI : Inv (run (ops ++ [Op.dispose]) initState) :=
    inv_run (ops ++ [Op.dispose]) initState Inv.initState
  rw [run_append] at hI ⊢
  refine ⟨⟨rfl, rfl⟩, ?_⟩
  intro p hp
  have hb := hI.balance p.1
  have hmaps : inMaps (run [Op.dispose] (run ops initState)).cmap p.1 = false := rfl
  rw [hmaps] at hb
  have hcont :
      (regSeqs (run [Op.dispose] (run ops initState))).contains p.1 = true := by
    rw [contains_eq_decide]
    exact decide_eq_true (List.mem_map_of_mem Prod.fst hp)
  rw [hcont] at hb
  simpa using hb

/-- Witness for C1 at a concrete trace: one synchronous submission, then
dispose; the registered outcome is resolved exactly once. -/
theorem c1_witness :
    (0, false) ∈ (run ([Op.execute "ping" false true false noFail] ++ [Op.dispose])
      initState).registeredLog ∧
    resCount 0 (run ([Op.execute "ping" false true false noFail] ++ [Op.dispose])
      initState).events = 1 :=
  ⟨by decide,
    (c1_outcomes_resolved_exactly_once [Op.execute "ping" false true false noFail]).2
      (0, false) (by decide)⟩

/-- Trace for claim C2: an asynchronous command (seq 0, written immediately),
a synchronous command (seq 1, written, in flight), two more synchronous
commands (seqs 2 and 3, queued behind seq 1), then cancellation of seq 1 —
leaving exactly 3 outstanding outcomes: seqs 2 and 3 sync-queued-unsent and
seq 0 async-in-flight. -/
def opsC2 : List Op :=
  [Op.execute "navto" true true false noFail,
   Op.execute "reqA" false true true noFail,
   Op.execute "reqB" false true false noFail,
   Op.execute "reqD" false true false noFail,
   Op.cancel 1]

/-- Claim C2 counterexample: in the claim's scenario (2 synchronous commands
queued but unsent, 1 asynchronous command in flight, nothing else pending),
the worker-exit handler does NOT leave the request queue empty — `handleExit`
never touches the queue.  The conjuncts establish the scenario: seqs 2 and 3
are queued and unwritten with registered synchronous callbacks, seq 0 was
written with a registered asynchronous callback, and the in-flight set is
empty; yet after the exit event the queue is non-empty. -/
theorem c2_counterexample :
    ((run opsC2 initState).queue.map RequestItem.seq = [2, 3] ∧
      (run opsC2 initState).pendingResponses = [] ∧
      (run opsC2 initState).written = [0, 1] ∧
      mapGet (run opsC2 initState).cmap.callbacks 2 =
        some { startTime := 0, isAsync := false } ∧
      mapGet (run opsC2 initState).cmap.callbacks 3 =
        some { startTime := 0, isAsync := false } ∧
      mapGet (run opsC2 initState).cmap.asyncCallbacks 0 =
        some { startTime := 0, isAsync := true }) ∧
    (step Op.exit (run opsC2 initState)).queue ≠ [] := by decide

/-- Claim C2 (amended): if the worker emits an exit event while 3 outcomes
are outstanding (2 synchronous commands queued but unsent, 1 asynchronous
command in flight), all 3 registered outcomes are resolved to failure and
both callback partitions end empty; the request queue, however, is NOT
cleared — it still contains the 2 unsent items. -/
theorem c2_exit_fails_all_queue_retained :
    (step Op.exit (run opsC2 initState)).events =
      (run opsC2 initState).events ++
        [Ev.failure 2 ErrCause.serverExited true,
         Ev.failure 3 ErrCause.serverExited true,
         Ev.failure 0 ErrCause.serverExited true] ∧
    (step Op.exit (run opsC2 initState)).cmap.callbacks = [] ∧
    (step Op.exit (run opsC2 initState)).cmap.asyncCallbacks = [] ∧
    (step Op.exit (run opsC2 initState)).queue = (run opsC2 initState).queue ∧
    (step Op.exit (run opsC2 initState)).queue.length = 2 := by decide

/-- Claim C3 counterexample: dispatching the distinguished `requestCompleted`
completion event for a sequence number that is in the in-flight synchronous
set resolves the callback (`onSuccess` fires) but does NOT remove the
sequence number from the in-flight set — the `requestCompleted` branch of
`dispatchMessage` fetches from the callback map directly instead of going
through `fetchCallback`. -/
theorem c3_counterexample :
    0 ∈ (run [Op.execute "geterr" false true false noFail] initState).pendingResponses ∧
    0 ∈ (step (Op.dispatch (Message.event "requestCompleted" 0) noFail)
      (run [Op.execute "geterr" false true false noFail] initState)).pendingResponses ∧
    (step (Op.dispatch (Message.event "requestCompleted" 0) noFail)
      (run [Op.execute "geterr" false true false noFail] initState)).events =
        [Ev.success 0] := by decide

/-- Claim C3 (amended): after every dispatched message the drain procedure has
run (observable as: if the in-flight set ended empty, the queue ended empty);
for an ordinary response whose sequence number has a registered callback and
is not also queued, the sequence number is no longer in the in-flight
synchronous set after dispatch; the `requestCompleted` completion-event path,
however, does not remove the sequence number from the in-flight set. -/
theorem c3_amended_dispatch_drain :
    (∀ (st : ServerState) (msg : Message) (f : Nat → Bool),
      (dispatchMessage f msg st).pendingResponses = [] →
        (dispatchMessage f msg st).queue = []) ∧
    (∀ (st : ServerState) (r : Nat) (b : Bool) (f : Nat → Bool) (cb : CallbackItem),
      (st.cmap.fetch r).1 = some cb → st.pendingResponses.Nodup →
        r ∉ st.queue.map RequestItem.seq →
        r ∉ (dispatchMessage f (Message.response r b) st).pendingResponses) ∧
    (∀ (st : ServerState) (r : Nat) (f : Nat → Bool),
      r ∈ st.pendingResponses →
        r ∈ (dispatchMessage f (Message.event "requestCompleted" r) st).pendingResponses) := by
  refine ⟨?_, ?_, ?_⟩
  · intro st msg f
    cases msg with
    | response r b => exact sendNextRequests_post f (dispatchResponse r b st)
    | event n r =>
      simp only [dispatchMessage]
      by_cases hn : n = "requestCompleted"
      · rw [if_pos hn]
        exact sendNextRequests_post f _
      · rw [if_neg hn]
        exact sendNextRequests_post f st
    | unknown => exact sendNextRequests_post f st
  · intro st r b f cb hf hnd hq
    show r ∉ (sendNextRequests f (dispatchResponse r b st)).pendingResponses
    have h1 : r ∉ (dispatchResponse r b st).pendingResponses := by
      unfold dispatchResponse
      rw [fetchCallback_fst, hf]
      cases b
      · show r ∉ (resolveError (fetchCallback st r).2 r ErrCause.responseErr).pendingResponses
        rw [show (resolveError (fetchCallback st r).2 r
            ErrCause.responseErr).pendingResponses =
          (fetchCallback st r).2.pendingResponses from rfl]
        rw [fetchCallback_some_snd hf]
        exact hnd.not_mem_erase
      · show r ∉ (resolveSuccess (fetchCallback st r).2 r).pendingResponses
        rw [show (resolveSuccess (fetchCallback st r).2 r).pendingResponses =
          (fetchCallback st r).2.pendingResponses from rfl]
        rw [fetchCallback_some_snd hf]
        exact hnd.not_mem_erase
    have h2 : r ∉ (dispatchResponse r b st).queue.map RequestItem.seq := by
      rw [dispatchResponse_queue]
      exact hq
    exact sendNextAux_not_mem_pending f r (dispatchResponse r b st).queue.length
      (dispatchResponse r b st) h1 h2
  · intro st r f hr
    simp only [dispatchMessage]
    rw [if_pos trivial]
    cases hfr : (st.cmap.fetch r).1 with
    | none => exact mem_pending_sendNextRequests hr
    | some cb => exact mem_pending_sendNextRequests hr

/-- Witness for the amended C3 at concrete inputs. -/
theorem c3_amended_witness :
    (dispatchMessage noFail Message.unknown initState).queue = [] ∧
    0 ∉ (dispatchMessage noFail (Message.response 0 true)
      (run [Op.execute "geterr2" false true false noFail] initState)).pendingResponses ∧
    0 ∈ (dispatchMessage noFail (Message.event "requestCompleted" 0)
      (run [Op.execute "geterr2" false true false noFail] initState)).pendingResponses :=
  ⟨c3_amended_dispatch_drain.1 initState Message.unknown noFail (by decide),
    c3_amended_dispatch_drain.2.1 (run [Op.execute "geterr2" false true false noFail] initState)
      0 true noFail { startTime := 0, isAsync := false } (by decide) (by decide) (by decide),
    c3_amended_dispatch_drain.2.2 (run [Op.execute "geterr2" false true false noFail] initState)
      0 noFail (by decide)⟩

/-- Claim C4: in every state reachable by any interleaving of submissions,
dispatches, cancellations and teardown, the in-flight synchronous set
contains at most one element, and every element of it is the sequence number
of a synchronous (never an asynchronous) registered command. -/
theorem c4_inflight_at_most_one_sync (ops : List Op) :
    (run ops initState).pendingResponses.length ≤ 1 ∧
    ∀ s ∈ (run ops initState).pendingResponses,
      (s, false) ∈ (run ops initState).registeredLog ∧
        (s, true) ∉ (run ops initState).registeredLog := by
  have hI := inv_run ops initState Inv.initState
  refine ⟨hI.pendLen, ?_⟩
  intro s hs
  refine ⟨hI.pendSync s hs, ?_⟩
  intro hmem
  exact absurd (key_val_unique hI.regNodup (hI.pendSync s hs) hmem) (by decide)

/-- Witness for C4 at a concrete trace with a non-empty in-flight set. -/
theorem c4_witness :
    0 ∈ (run [Op.execute "ping" false true false noFail] initState).pendingResponses ∧
    ((0, false) ∈ (run [Op.execute "ping" false true false noFail] initState).registeredLog ∧
      (0, true) ∉ (run [Op.execute "ping" false true false noFail] initState).registeredLog) :=
  ⟨by decide,
    (c4_inflight_at_most_one_sync [Op.execute "ping" false true false noFail]).2 0 (by decide)⟩

/-- Claim C5: if synchronous command A is submitted and then synchronous
command B is submitted before A resolves, B is never written to the worker
while A is unresolved — any single step that leaves A in the in-flight set
writes nothing — and once A's response is dispatched, B is the next item
written.  The concrete part runs the scenario: after submitting A (seq 0)
and B (seq 1), only A has been written and B waits queued; dispatching A's
response writes B immediately after. -/
theorem c5_sync_serialization :
    (∀ (st : ServerState) (op : Op) (a : Nat),
      a ∉ st.queue.map RequestItem.seq → a ∈ st.pendingResponses →
        a ∈ (step op st).pendingResponses → (step op st).written = st.written) ∧
    ((run [Op.execute "reqA" false true false noFail,
        Op.execute "reqB" false true false noFail] initState).written = [0] ∧
      (run [Op.execute "reqA" false true false noFail,
        Op.execute "reqB" false true false noFail] initState).queue.map RequestItem.seq =
          [1] ∧
      (run [Op.execute "reqA" false true false noFail,
        Op.execute "reqB" false true false noFail] initState).pendingResponses = [0] ∧
      (step (Op.dispatch (Message.response 0 true) noFail)
        (run [Op.execute "reqA" false true false noFail,
          Op.execute "reqB" false true false noFail] initState)).written = [0, 1]) := by
  refine ⟨?_, by decide⟩
  intro st op a hq h1 h2
  exact step_written_frozen hq h1 h2

/-- Witness for C5's general part at a concrete input: a no-op cancellation
step leaves the in-flight command unresolved and writes nothing. -/
theorem c5_witness :
    (step (Op.cancel 99) (run [Op.execute "reqA" false true false noFail,
      Op.execute "reqB" false true false noFail] initState)).written =
      (run [Op.execute "reqA" false true false noFail,
        Op.execute "reqB" false true false noFail] initState).written :=
  c5_sync_serialization.1 _ (Op.cancel 99) 0 (by decide) (by decide) (by decide)

/-- Claim C6: for every call to the cancellation procedure with sequence
number `s` — whichever of its paths applies (queued item removed,
cancellation pipe signalled, or neither) — if a PendingOutcome is still
registered for `s` then its failure continuation is invoked with a
cancellation reason and `s` is removed from the in-flight synchronous set. -/
theorem c6_cancel_resolves_registered (st : ServerState) (s : Nat)
    (hreg : inMaps st.cmap s = true) (hnd : st.pendingResponses.Nodup) :
    (tryCancelRequest s st).events =
      st.events ++ [Ev.failure s ErrCause.cancelled (!(st.cancelledFlags.contains s))] ∧
    s ∉ (tryCancelRequest s st).pendingResponses := by
  obtain ⟨cb, hcb⟩ := Option.isSome_iff_exists.mp (fetch_some_of_inMaps hreg)
  simp only [tryCancelRequest]
  by_cases hr : (tryCancelPendingRequest st.queue s).1 = true
  · rw [if_pos hr]
    exact cancelResolve_spec hcb hnd
  · rw [if_neg hr, ite_self]
    exact cancelResolve_spec hcb hnd

/-- Witness for C6 at a concrete state with an in-flight registered command. -/
theorem c6_witness :
    inMaps (run [Op.execute "quickinfo" false true false noFail] initState).cmap 0 = true ∧
    ((tryCancelRequest 0 (run [Op.execute "quickinfo" false true false noFail]
        initState)).events = [Ev.failure 0 ErrCause.cancelled true] ∧
      0 ∉ (tryCancelRequest 0 (run [Op.execute "quickinfo" false true false noFail]
        initState)).pendingResponses) := by
  refine ⟨by decide, ?_⟩
  have h := c6_cancel_resolves_registered
    (run [Op.execute "quickinfo" false true false noFail] initState) 0 (by decide) (by decide)
  exact ⟨h.1.trans (by decide), h.2⟩

/-- Claim C7: whenever a registered outcome resolves to failure, the
diagnostic record is forwarded to the diagnostics collaborator (telemetry
flag true) if and only if the failure was not caused by an explicit
cancellation of that command. -/
theorem c7_telemetry_iff_not_cancelled (ops : List Op) (s : Nat) (c : ErrCause) (t : Bool)
    (h : Ev.failure s c t ∈ (run ops initState).events) :
    t = true ↔ c ≠ ErrCause.cancelled :=
  (inv_run ops initState Inv.initState).telOk s c t h

/-- Witness for C7 at a concrete trace with a write failure. -/
theorem c7_witness :
    Ev.failure 0 ErrCause.writeErr true ∈
      (run [Op.execute "ping" false true false allFail] initState).events ∧
    (true = true ↔ ErrCause.writeErr ≠ ErrCause.cancelled) :=
  ⟨by decide,
    c7_telemetry_iff_not_cancelled [Op.execute "ping" false true false allFail]
      0 ErrCause.writeErr true (by decide)⟩

/-- Claim C8: parsing the failure error text
`"Error processing request. Bad arg\nat foo()"` produces a diagnostics
properties map in which `message` maps to `"Bad arg"`, `stack` maps to
`"at foo()"`, and `errorText` holds the full raw text. -/
theorem c8_parse_error_text :
    mapGet (parseErrorText (some "Error processing request. Bad arg\nat foo()")
        "completions") "message" = some "Bad arg" ∧
    mapGet (parseErrorText (some "Error processing request. Bad arg\nat foo()")
        "completions") "stack" = some "at foo()" ∧
    mapGet (parseErrorText (some "Error processing request. Bad arg\nat foo()")
        "completions") "errorText" =
      some "Error processing request. Bad arg\nat foo()" := by decide

/-- Claim C9: the cancellation procedure never runs the drain loop itself —
neither the token handler nor `tryCancelRequest` ever extends the written
log — and after cancelling the in-flight synchronous command (which empties
the in-flight set) the queued item stays unsent until the next dispatched
message or the next submission runs the drain procedure, which then writes
it. -/
theorem c9_cancel_never_drains :
    (∀ (st : ServerState) (s : Nat), (cancelToken s st).written = st.written ∧
      (tryCancelRequest s st).written = st.written) ∧
    ((step (Op.cancel 0) (run [Op.execute "reqA" false true true noFail,
        Op.execute "reqB" false true false noFail] initState)).pendingResponses = [] ∧
      (step (Op.cancel 0) (run [Op.execute "reqA" false true true noFail,
        Op.execute "reqB" false true false noFail] initState)).queue.map
          RequestItem.seq = [1] ∧
      (step (Op.cancel 0) (run [Op.execute "reqA" false true true noFail,
        Op.execute "reqB" false true false noFail] initState)).written = [0] ∧
      (step (Op.dispatch Message.unknown noFail)
        (step (Op.cancel 0) (run [Op.execute "reqA" false true true noFail,
          Op.execute "reqB" false true false noFail] initState))).written = [0, 1] ∧
      (step (Op.execute "reqC" false false false noFail)
        (step (Op.cancel 0) (run [Op.execute "reqA" false true true noFail,
          Op.execute "reqB" false true false noFail] initState))).written = [0, 1]) :=
  ⟨fun st s => ⟨cancelToken_written s st, tryCancelRequest_written s st⟩, by decide⟩

/-- Claim C10: the worker-exit and worker-error handlers mutate only the
callback maps — the request queue, the in-flight synchronous set and the
sequence counter are left unchanged by `handleExit` and `handleError` — and
`dispose` clears the in-flight synchronous set. -/
theorem c10_exit_error_frame (st : ServerState) :
    (handleExit st).queue = st.queue ∧
    (handleExit st).pendingResponses = st.pendingResponses ∧
    (handleExit st).sequenceNumber = st.sequenceNumber ∧
    (handleError st).queue = st.queue ∧
    (handleError st).pendingResponses = st.pendingResponses ∧
    (handleError st).sequenceNumber = st.sequenceNumber ∧
    (dispose st).pendingResponses = [] := by
  refine ⟨?_, ?_, ?_, ?_, ?_, ?_, rfl⟩
  · show (destroy ErrCause.serverExited st).queue = st.queue
    rw [destroy_eq]
  · show (destroy ErrCause.serverExited st).pendingResponses = st.pendingResponses
    rw [destroy_eq]
  · show (destroy ErrCause.serverExited st).sequenceNumber = st.sequenceNumber
    rw [destroy_eq]
  · show (destroy ErrCause.serverErrored st).queue = st.queue
    rw [destroy_eq]
  · show (destroy ErrCause.serverErrored st).pendingResponses = st.pendingResponses
    rw [destroy_eq]
  · show (destroy ErrCause.serverErrored st).sequenceNumber = st.sequenceNumber
    rw [destroy_eq]

end TSServer
